import Mathlib

/-!
Verification development for git-series (src/main.rs): a shallow embedding of
the snapshot layer (`Internals`), the commit composer (`commit_status`), the
series directory (`delete`), the base/add operations, the rebase plan builder
and the top-level error handling, over an explicit model of the git object
store (content-addressed trees and commits plus named references with
compare-and-swap updates).

The object store itself (libgit2) is an external collaborator of the program;
it is modelled here at its interface: an immutable content-addressed pool of
tree and commit objects, an association list of named references, and one
symbolic reference (SHEAD).  Digests are modelled as natural numbers; the
reserved all-zero digest is `0`.  Content addressing of trees is modelled by
lookup-before-allocate; commit objects always get a fresh digest (real commits
embed timestamps, so re-creating "the same" commit yields a new digest).
Author/committer signatures are environment lookups and are modelled as always
available; their failure modes are out of scope of the claims considered here.
-/

set_option linter.unusedVariables false

/-- Object digest. `0` is the reserved all-zero sentinel digest. -/
abbrev Oid := Nat

/-- The all-zero digest used by the program as an "absent" sentinel. -/
def zeroOid : Oid := 0

/-- git filemode for a blob entry (0o100644). -/
def gitFilemodeBlob : Nat := 0o100644

/-- git filemode for a commit (gitlink) entry (0o160000). -/
def gitFilemodeCommit : Nat := 0o160000

/-- One tree entry: target digest plus filemode.  The entry kind (commit,
blob, ...) is derived from the filemode, as libgit2 does. -/
structure TreeEntry where
  eid : Oid
  filemode : Nat
deriving Repr, DecidableEq

/-- Entry kind is commit iff the filemode is the gitlink filemode. -/
def TreeEntry.isCommit (e : TreeEntry) : Bool :=
  e.filemode = gitFilemodeCommit

/-- A finalized tree: ordered association of slot name to entry. -/
abbrev ObjTree := List (String × TreeEntry)

/-- A mutable tree builder; same data, mutated in place by the operations.
The git tree builder keys are unique; `tbInsert` below keeps the list sorted
by name (git finalizes trees in name order) and replaces duplicates. -/
abbrev TreeBuilder := List (String × TreeEntry)

/-- Strict byte-order comparison of character lists (git name order). -/
def charListLt : List Char → List Char → Bool
  | [], [] => false
  | [], _ :: _ => true
  | _ :: _, [] => false
  | c :: cs, d :: ds =>
    if c.toNat < d.toNat then true
    else if d.toNat < c.toNat then false
    else charListLt cs ds

/-- Strict byte-order comparison of strings. -/
def strLt (a b : String) : Bool := charListLt a.data b.data

/-- Reflexive byte-order comparison of strings. -/
def strLe (a b : String) : Bool := strLt a b || a = b

/-- TreeBuilder::get — first binding for the name. -/
def tbGet : TreeBuilder → String → Option TreeEntry
  | [], _ => none
  | (m, e) :: r, n => if m = n then some e else tbGet r n

/-- TreeBuilder::insert — insert keeping name order, replacing an existing
binding of the same name. -/
def tbInsert : TreeBuilder → String → TreeEntry → TreeBuilder
  | [], n, e => [(n, e)]
  | (m, f) :: r, n, e =>
    if n = m then (n, e) :: r
    else if strLt n m then (n, e) :: (m, f) :: r
    else (m, f) :: tbInsert r n e

/-- TreeBuilder::remove — fails (returns `none`, like libgit2's ENOTFOUND)
when no entry of that name exists. -/
def tbRemove : TreeBuilder → String → Option TreeBuilder
  | [], _ => none
  | (m, f) :: r, n =>
    if m = n then some r
    else (tbRemove r n).map (fun r' => (m, f) :: r')

/-- A commit object: tree digest, parent digests, message. -/
structure CommitObj where
  tree : Oid
  parents : List Oid
  message : String
deriving Repr, DecidableEq

/-- First-match association lookup keyed by digest. -/
def lookOid {α : Type} : List (Oid × α) → Oid → Option α
  | [], _ => none
  | (k, v) :: r, i => if k = i then some v else lookOid r i

/-- First-match association lookup keyed by name. -/
def lookStr {α : Type} : List (String × α) → String → Option α
  | [], _ => none
  | (k, v) :: r, n => if k = n then some v else lookStr r n

/-- Replace the first binding of a name, or add one at the end. -/
def setStr {α : Type} : List (String × α) → String → α → List (String × α)
  | [], n, v => [(n, v)]
  | (k, w) :: r, n, v => if k = n then (n, v) :: r else (k, w) :: setStr r n v

/-- Delete the first binding of a name. -/
def delStr {α : Type} : List (String × α) → String → List (String × α)
  | [], _ => []
  | (k, w) :: r, n => if k = n then r else (k, w) :: delStr r n

/-- Content lookup for trees (used to model content addressing). -/
def findTreeByContent : List (Oid × ObjTree) → ObjTree → Option (Oid × ObjTree)
  | [], _ => none
  | p :: r, t => if p.2 = t then some p else findTreeByContent r t

/-- The modelled object store: tree and commit objects by digest, direct
references by name, the symbolic SHEAD reference, and the next fresh digest. -/
structure Store where
  trees : List (Oid × ObjTree)
  commits : List (Oid × CommitObj)
  refs : List (String × Oid)
  shead : Option String
  nextOid : Oid
deriving Repr, DecidableEq

/-- Look a tree object up by digest. -/
def Store.lookTree (s : Store) (id : Oid) : Option ObjTree :=
  lookOid s.trees id

/-- Look a commit object up by digest. -/
def Store.lookCommit (s : Store) (id : Oid) : Option CommitObj :=
  lookOid s.commits id

/-- Resolve a direct reference name to its digest (refname_to_id). -/
def Store.refTarget (s : Store) (name : String) : Option Oid :=
  lookStr s.refs name

/-- Force-set a direct reference (repo.reference with force = true). -/
def Store.refSet (s : Store) (name : String) (id : Oid) : Store :=
  { s with refs := setStr s.refs name id }

/-- Delete a direct reference. -/
def Store.refDelete (s : Store) (name : String) : Store :=
  { s with refs := delStr s.refs name }

/-- TreeBuilder::write — finalize a builder into a tree object.  Content
addressed: an already-stored identical tree yields its existing digest and
leaves the store unchanged; otherwise a fresh digest is allocated. -/
def Store.writeTree (s : Store) (t : ObjTree) : Store × Oid :=
  match findTreeByContent s.trees t with
  | some p => (s, p.1)
  | none =>
    ({ s with trees := (s.nextOid, t) :: s.trees, nextOid := s.nextOid + 1 }, s.nextOid)

/-- repo.commit with no reference to update: store a new commit object under a
fresh digest (commit objects embed timestamps, so no content dedup). -/
def Store.commitCreate (s : Store) (tree : Oid) (parents : List Oid) (message : String) :
    Store × Oid :=
  ({ s with commits := (s.nextOid, ⟨tree, parents, message⟩) :: s.commits,
            nextOid := s.nextOid + 1 }, s.nextOid)

/-- Does any object (commit or tree) with this digest exist? (revparse model) -/
def Store.hasObject (s : Store) (id : Oid) : Bool :=
  (s.lookCommit id).isSome || (s.lookTree id).isSome

/-- Bounded reachability along parent edges; `src = dst` counts as reached.
Fuel-bounded so the function is total; with fuel above the number of commits
it decides reachability on the acyclic stores git produces. -/
def reachB (s : Store) : Nat → Oid → Oid → Bool
  | 0, _, _ => false
  | fuel + 1, src, dst =>
    src = dst ||
      match s.lookCommit src with
      | none => false
      | some c => c.parents.any (fun p => reachB s fuel p dst)

/-- repo.graph_descendant_of commit ancestor: the ancestor is reachable from
the commit by one or more parent edges (a commit is not its own descendant). -/
def descendantOf (s : Store) (commit ancestor : Oid) : Bool :=
  match s.lookCommit commit with
  | none => false
  | some c => c.parents.any (fun p => reachB s (s.commits.length + 1) p ancestor)

/-- The error type of the program (quick_error! enum in main.rs). -/
inductive Error where
  | commitNoChanges
  | checkoutConflict
  | notFound
  | git2 (m : String)
  | msg (m : String)
deriving Repr, DecidableEq

/-- Display text of an error, as printed by the top level (the two tagged
abort variants are never displayed; any rendering works for them). -/
def errText : Error → String
  | .commitNoChanges => "CommitNoChanges"
  | .checkoutConflict => "CheckoutConflict"
  | .notFound => "object not found"
  | .git2 m => m
  | .msg m => m

/-- reference_matching_opt: force-update a reference; when an expected prior
value is supplied the update is a compare-and-swap that fails unless the
reference currently holds exactly that value. -/
def referenceMatchingOpt (s : Store) (name : String) (id : Oid) (expected : Option Oid) :
    Except Error Store :=
  match expected with
  | none => .ok (s.refSet name id)
  | some cur =>
    if s.refTarget name = some cur then .ok (s.refSet name id)
    else .error (.git2 "reference value does not match expected")

/-- Strip a prefix from a character list; `none` when it is not a prefix. -/
def stripPre : List Char → List Char → Option (List Char)
  | [], s => some s
  | _ :: _, [] => none
  | p :: ps, c :: cs => if c = p then stripPre ps cs else none

/-- Strip a string prefix (starts_with + slicing in the source). -/
def stripPrefixS (pre s : String) : Option String :=
  (stripPre pre.data s.data).map String.mk

/-- Reference namespace of published series history (SERIES_PREFIX). -/
def seriesRefPre : String := "refs/heads/git-series/"

/-- Reference namespace of staged snapshots (STAGED_PREFIX). -/
def stagedRefPre : String := "refs/git-series-internals/staged/"

/-- Reference namespace of working snapshots (WORKING_PREFIX). -/
def workingRefPre : String := "refs/git-series-internals/working/"

/-- shead_series_name: SHEAD's symbolic target must lie under the published
history namespace; return the series name. -/
def sheadSeriesName (target : String) : Except Error String :=
  match stripPrefixS seriesRefPre target with
  | some name => .ok name
  | none => .error (.msg ("SHEAD does not start with " ++ seriesRefPre))

/-- Sorted insertion for a boolean order. -/
def insSorted {α : Type} (le : α → α → Bool) (a : α) : List α → List α
  | [] => [a]
  | b :: r => if le a b then a :: b :: r else b :: insSorted le a r

/-- Insertion sort for a boolean order. -/
def sortB {α : Type} (le : α → α → Bool) (l : List α) : List α :=
  l.foldr (insSorted le) []

/-- Remove adjacent duplicates (Vec::dedup). -/
def dedupAdj {α : Type} [DecidableEq α] : List α → List α
  | [] => []
  | [a] => [a]
  | a :: b :: r => if a = b then dedupAdj (b :: r) else a :: dedupAdj (b :: r)

/-- parents.sort(); parents.dedup() on a digest list. -/
def oidSortDedup (l : List Oid) : List Oid :=
  dedupAdj (sortB (fun a b => a ≤ b) l)

/-- parents_from_ids: sort, de-duplicate, and resolve each digest to a stored
commit (failing like repo.find_commit when one is missing). -/
def parentsFromIds (s : Store) (parents : List Oid) : Except Error (List Oid) :=
  let sorted := oidSortDedup parents
  if sorted.all (fun p => (s.lookCommit p).isSome) then .ok sorted
  else .error .notFound

/-- The commit-kind entries of a finalized tree, in tree order. -/
def treeCommitIds (t : ObjTree) : List Oid :=
  (t.filter (fun p => p.2.isCommit)).map (fun p => p.2.eid)

/-- The snapshot layer: the two per-series tree builders. -/
structure Internals where
  staged : TreeBuilder
  working : TreeBuilder
deriving Repr, DecidableEq

/-- Load one snapshot builder, seeded from the tip commit of its reference
when that reference exists, else empty (the closure in Internals::read_series). -/
def readTB (s : Store) (refname : String) : Except Error TreeBuilder :=
  match s.refTarget refname with
  | none => .ok []
  | some id =>
    match s.lookCommit id with
    | none => .error .notFound
    | some c =>
      match s.lookTree c.tree with
      | none => .error .notFound
      | some t => .ok t

/-- Internals::read_series — load the staged and working snapshots of a named
series, independent of SHEAD. -/
def Internals.read_series (s : Store) (name : String) : Except Error Internals :=
  match readTB s (stagedRefPre ++ name) with
  | .error e => .error e
  | .ok st =>
    match readTB s (workingRefPre ++ name) with
    | .error e => .error e
    | .ok wk => .ok ⟨st, wk⟩

/-- Internals::update_series — refresh the working snapshot's `series` slot to
the current HEAD commit. -/
def Internals.update_series (ints : Internals) (s : Store) : Except Error Internals :=
  match s.refTarget "HEAD" with
  | none => .error .notFound
  | some h => .ok { ints with working := tbInsert ints.working "series" ⟨h, gitFilemodeCommit⟩ }

/-- Internals::read — resolve SHEAD to a series name, load that series, then
refresh the working `series` slot from HEAD. -/
def Internals.read (s : Store) : Except Error Internals :=
  match s.shead with
  | none => .error .notFound
  | some target =>
    match sheadSeriesName target with
    | .error e => .error e
    | .ok name =>
      match Internals.read_series s name with
      | .error e => .error e
      | .ok ints => ints.update_series s

/-- The commit-creating tail of the maybe_commit closure: look the finalized
tree up, collect its commit-kind entries as parents (sorted, de-duplicated),
create the commit, and attach it by compare-and-swap against `old`, the value
read from the reference at the start of this write.  Reflog creation is a
store-internal side effect and is not modelled. -/
def maybeCommitCreate (s : Store) (refname : String) (treeId : Oid) (old : Option Oid) :
    Store × Except Error Unit :=
  match s.lookTree treeId with
  | none => (s, .error .notFound)
  | some t =>
    match parentsFromIds s (treeCommitIds t) with
    | .error e => (s, .error e)
    | .ok pids =>
      let cc := s.commitCreate treeId pids refname
      match referenceMatchingOpt cc.1 refname cc.2 old with
      | .ok s3 => (s3, .ok ())
      | .error e => (cc.1, .error e)

/-- The per-snapshot half of Internals::write (the maybe_commit closure):
finalize the builder; skip when the reference's current commit already has
this tree; otherwise create and attach a new commit. -/
def maybeCommit (s : Store) (refname : String) (tb : TreeBuilder) :
    Store × Except Error Unit :=
  match s.writeTree tb with
  | (s1, treeId) =>
    match s1.refTarget refname with
    | some id =>
      match s1.lookCommit id with
      | none => (s1, .error .notFound)
      | some c =>
        if c.tree = treeId then (s1, .ok ())
        else maybeCommitCreate s1 refname treeId (some id)
    | none => maybeCommitCreate s1 refname treeId none

/-- Internals::write — persist both snapshots (staged first, then working). -/
def Internals.write (s : Store) (ints : Internals) : Store × Except Error Unit :=
  match s.shead with
  | none => (s, .error .notFound)
  | some target =>
    match sheadSeriesName target with
    | .error e => (s, .error e)
    | .ok name =>
      match maybeCommit s (stagedRefPre ++ name) ints.staged with
      | (s1, .ok _) => maybeCommit s1 (workingRefPre ++ name) ints.working
      | (s1, .error e) => (s1, .error e)

/-- Model of the object store's short-id rendering of a digest. -/
def shortIdS (id : Oid) : String :=
  Nat.repr id

/-- First line of a message (model of commit summary extraction). -/
def firstLine (s : String) : String :=
  String.mk (s.data.takeWhile (fun c => c ≠ '\n'))

/-- commit_summarize_components: (short id, summary) of a stored commit. -/
def commitSummarizeComponents (s : Store) (id : Oid) : Except Error (String × String) :=
  match s.lookCommit id with
  | none => .error .notFound
  | some c => .ok (shortIdS id, firstLine c.message)

/-- commit_summarize: "short-id summary" of a stored commit. -/
def commitSummarize (s : Store) (id : Oid) : Except Error String :=
  match commitSummarizeComponents s id with
  | .error e => .error e
  | .ok p => .ok (p.1 ++ " " ++ p.2)

/-- Split a character list at newline characters. -/
def linesAux : List Char → List Char → List (List Char)
  | acc, [] => [acc.reverse]
  | acc, c :: cs => if c = '\n' then acc.reverse :: linesAux [] cs else linesAux (c :: acc) cs

/-- Horizontal whitespace (for trailing-whitespace stripping). -/
def isWsp (c : Char) : Bool :=
  c = ' ' || c = '\t' || c = '\r'

/-- Strip trailing whitespace of one line. -/
def rstripChars (l : List Char) : List Char :=
  (l.reverse.dropWhile isWsp).reverse

/-- Does the line start with the comment character? -/
def isCommentLine (l : List Char) : Bool :=
  match l with
  | c :: _ => c = '#'
  | [] => false

/-- Drop empty lines at the end. -/
def dropBlanksEnd (ls : List (List Char)) : List (List Char) :=
  (ls.reverse.dropWhile List.isEmpty).reverse

/-- Collapse runs of empty lines into one. -/
def collapseBlanks : List (List Char) → List (List Char)
  | [] => []
  | [a] => [a]
  | a :: b :: r =>
    if a.isEmpty && b.isEmpty then collapseBlanks (b :: r) else a :: collapseBlanks (b :: r)

/-- Join lines, each terminated by a newline. -/
def joinNl : List String → String
  | [] => ""
  | [l] => l ++ "\n"
  | l :: r => l ++ "\n" ++ joinNl r

/-- Model of git2::message_prettify with the default comment character:
drop comment lines, strip trailing whitespace, normalize blank lines, and
return "" for a message with no content. -/
def messagePrettify (s : String) : String :=
  let ls := (linesAux [] s.data).filter (fun l => !isCommentLine l)
  let ls := ls.map rstripChars
  let ls := collapseBlanks ((dropBlanksEnd ls).dropWhile List.isEmpty)
  match ls with
  | [] => ""
  | _ => joinNl (ls.map String.mk)

/-- Is the needle a prefix of the haystack? -/
def isPreL : List Char → List Char → Bool
  | [], _ => true
  | _ :: _, [] => false
  | p :: ps, c :: cs => c = p && isPreL ps cs

/-- Everything before the first occurrence of the needle (the whole list when
the needle does not occur) — the msg.find + truncate idiom. -/
def takeBeforeL (needle : List Char) : List Char → List Char
  | [] => []
  | c :: cs => if isPreL needle (c :: cs) then [] else c :: takeBeforeL needle cs

/-- String form of `takeBeforeL`. -/
def truncateAt (needle s : String) : String :=
  String.mk (takeBeforeL needle.data s.data)

/-- SCISSOR_LINE from main.rs. -/
def scissorLine : String :=
  "# ------------------------ >8 ------------------------"

/-- The result of an operation: final store, printed lines, and outcome. -/
structure OpOut (α : Type) where
  store : Store
  out : List String
  res : Except Error α
deriving Repr

/-- The per-path body of the `add` loop: a path present in the working
snapshot is copied into the staged snapshot; a path absent from the working
snapshot is removed from the staged snapshot, guarded by a presence check. -/
def addOne (ints : Internals) (file : String) : Except Error Internals :=
  match tbGet ints.working file with
  | some entry => .ok { ints with staged := tbInsert ints.staged file entry }
  | none =>
    if (tbGet ints.staged file).isSome then
      match tbRemove ints.staged file with
      | some st => .ok { ints with staged := st }
      | none => .error .notFound
    else .ok ints

/-- Fold of `addOne` over the path arguments. -/
def addFiles (ints : Internals) : List String → Except Error Internals
  | [] => .ok ints
  | f :: fs =>
    match addOne ints f with
    | .ok i => addFiles i fs
    | .error e => .error e

/-- The `add` operation: read, apply each path change, persist. -/
def addOp (s : Store) (files : List String) : Store × Except Error Unit :=
  match Internals.read s with
  | .error e => (s, .error e)
  | .ok ints =>
    match addFiles ints files with
    | .error e => (s, .error e)
    | .ok ints2 => Internals.write s ints2

/-- Arguments of the `base` operation; the base argument is modelled as an
already-parsed revision digest (revparse_single is checked via hasObject). -/
structure BaseArgs where
  delete : Bool
  base : Option Oid
deriving Repr, DecidableEq

/-- The `base` operation (get, set, or clear the base slot). -/
def baseOp (s : Store) (args : BaseArgs) : OpOut Unit :=
  match Internals.read s with
  | .error e => ⟨s, [], .error e⟩
  | .ok ints =>
  let currentBaseId :=
    match tbGet ints.working "base" with
    | some entry => entry.eid
    | none => zeroOid
  if !args.delete && args.base = none then
    if currentBaseId = zeroOid then ⟨s, [], .error (.msg "Patch series has no base set")⟩
    else ⟨s, [Nat.repr currentBaseId], .ok ()⟩
  else
  let newBaseRes : Except Error Oid :=
    if args.delete then .ok zeroOid
    else
      match args.base with
      | none => .error (.msg "missing base argument")
      | some b =>
        if s.hasObject b then
          match tbGet ints.working "series" with
          | none => .error (.msg "Could not find entry \"series\" in working vesion of current series")
          | some se =>
            if b ≠ se.eid && !descendantOf s se.eid b then
              .error (.msg ("Cannot set base to " ++ Nat.repr b ++
                ": not an ancestor of the patch series " ++ Nat.repr se.eid))
            else .ok b
        else .error .notFound
  match newBaseRes with
  | .error e => ⟨s, [], .error e⟩
  | .ok newBaseId =>
  if currentBaseId = newBaseId then ⟨s, [], .error (.msg "Base unchanged")⟩
  else
  match (if currentBaseId ≠ zeroOid then
           (commitSummarize s currentBaseId).map (fun t => ["Previous base was " ++ t])
         else .ok []) with
  | .error e => ⟨s, [], .error e⟩
  | .ok out1 =>
  if newBaseId = zeroOid then
    match tbRemove ints.working "base" with
    | none => ⟨s, out1, .error .notFound⟩
    | some wk =>
      match Internals.write s { ints with working := wk } with
      | (s1, .ok _) => ⟨s1, out1 ++ ["Cleared patch series base"], .ok ()⟩
      | (s1, .error e) => ⟨s1, out1, .error e⟩
  else
    let wk := tbInsert ints.working "base" ⟨newBaseId, gitFilemodeCommit⟩
    match Internals.write s { ints with working := wk } with
    | (s1, .ok _) =>
      match commitSummarize s1 newBaseId with
      | .ok t => ⟨s1, out1 ++ ["Set patch series base to " ++ t], .ok ()⟩
      | .error e => ⟨s1, out1, .error e⟩
    | (s1, .error e) => ⟨s1, out1, .error e⟩

/-- The reference-deletion tail of the `delete` operation: remove the history
reference and both snapshot references when present; it is an error when
nothing existed to delete. -/
def deleteRefsPart (s : Store) (name : String) : Store × Except Error Unit :=
  let prefixed := seriesRefPre ++ name
  let step1 : Store × Bool :=
    match s.refTarget prefixed with
    | some _ => (s.refDelete prefixed, true)
    | none => (s, false)
  let step2 : Store × Bool :=
    match step1.1.refTarget (stagedRefPre ++ name) with
    | some _ => (step1.1.refDelete (stagedRefPre ++ name), true)
    | none => (step1.1, false)
  let step3 : Store × Bool :=
    match step2.1.refTarget (workingRefPre ++ name) with
    | some _ => (step2.1.refDelete (workingRefPre ++ name), true)
    | none => (step2.1, false)
  if !step1.2 && !(step2.2 || step3.2) then
    (step3.1, .error (.msg ("Nothing to delete: series \"" ++ name ++ "\" does not exist.")))
  else (step3.1, .ok ())

/-- The `delete` operation: refuse to delete the series SHEAD designates;
otherwise delete its references. -/
def deleteOp (s : Store) (name : String) : Store × Except Error Unit :=
  match s.shead with
  | some target =>
    match sheadSeriesName target with
    | .error e => (s, .error e)
    | .ok cur =>
      if cur = name then
        (s, .error (.msg ("Cannot delete the current series \"" ++ name ++ "\"; detach first.")))
      else deleteRefsPart s name
  | none => deleteRefsPart s name

/-- Sorted, de-duplicated union of the slot names of two trees. -/
def namesUnion (t1 t2 : ObjTree) : List String :=
  dedupAdj (sortB strLe (t1.map Prod.fst ++ t2.map Prod.fst))

/-- The delta (status, path) a name contributes to a tree-to-tree diff. -/
def deltaOf (t1 t2 : ObjTree) (n : String) : Option (String × String) :=
  match tbGet t1 n, tbGet t2 n with
  | some a, some b => if a = b then none else some ("Modified", n)
  | some _, none => some ("Deleted", n)
  | none, some _ => some ("Added", n)
  | none, none => none

/-- diff_tree_to_tree (old tree optional): the list of (status, path) deltas. -/
def diffTT (t1 : Option ObjTree) (t2 : ObjTree) : List (String × String) :=
  let o := t1.getD []
  (namesUnion o t2).filterMap (deltaOf o t2)

/-- write_status: render a delta list under a heading (with optional hints);
returns whether there were any changes plus the rendered lines. -/
def writeStatusLines (deltas : List (String × String)) (heading : String)
    (showHints : Bool) (hints : List String) : Bool × List String :=
  match deltas with
  | [] => (false, [])
  | _ =>
    (true,
      [heading] ++ (if showHints then hints.map (fun h => "  (" ++ h ++ ")") else []) ++ [""] ++
      deltas.map (fun d => "        " ++ d.1 ++ ":   " ++ d.2) ++ [""])

/-- Arguments of the commit/status operation.  A `none` message means the
message is collected through the external editor, whose resulting file
content is supplied to `commit_status` as `editorOut`. -/
structure CommitArgs where
  all : Bool
  message : Option String
  verbose : Bool
deriving Repr

/-- The commit message as computed by commit_status: the inline -m argument
when given, otherwise the editor's file content truncated at the scissor line
and normalized by message_prettify. -/
def msgOf (args : CommitArgs) (editorOut : String) : String :=
  match args.message with
  | some m => m
  | none => messagePrettify (truncateAt scissorLine editorOut)

/-- The tail of commit_status, from the diff/branch computation through
validation, message collection, commit creation, and the optional staged
reset — factored out of `commit_status` so theorems can reason about it once
the SHEAD resolution is fixed. -/
def commitStatusTail (s2 : Store) (args : CommitArgs) (doStatus : Bool)
    (editorOut : String) (seriesName target : String) (ints : Internals)
    (sheadPair : Option (Oid × CommitObj)) (sheadTree : Option ObjTree)
    (workingTid stagedTid : Oid) (workingTree stagedTree : ObjTree) : OpOut Unit :=
  let statusInit :=
    ["On series " ++ seriesName] ++
    (match sheadPair with
     | none => ["", "Initial series commit", ""]
     | some _ => [])
  let branchRes : Bool × Oid × ObjTree × List String :=
    if args.all then
      let deltas := diffTT sheadTree workingTree
      let ws := writeStatusLines deltas "Changes to be committed:" false []
      let extra := if ws.1 then [] else ["nothing to commit; series unchanged"]
      (ws.1, workingTid, workingTree, ws.2 ++ extra)
    else
      let d1 := diffTT sheadTree stagedTree
      let w1 := writeStatusLines d1 "Changes to be committed:" doStatus
        ["use \"git series commit\" to commit",
         "use \"git series unadd <file>...\" to undo add"]
      let d2 := diffTT (some stagedTree) workingTree
      let w2 := writeStatusLines d2 "Changes not staged for commit:" doStatus
        ["use \"git series add <file>...\" to update what will be committed"]
      let extra :=
        if w1.1 then []
        else if w2.1 then
          ["no changes added to commit (use \"git series add\" or \"git series commit -a\")"]
        else ["nothing to commit; series unchanged"]
      (w1.1, stagedTid, stagedTree, w1.2 ++ w2.2 ++ extra)
  match branchRes with
  | (changes, treeId, tree, statusRest) =>
  let status := statusInit ++ statusRest
  if doStatus || !changes then
    if !doStatus then ⟨s2, status, .error .commitNoChanges⟩
    else ⟨s2, status, .ok ()⟩
  else
  match tbGet tree "series" with
  | none =>
    ⟨s2, [], .error (.msg ("Cannot commit: initial commit must include \"series\"\n" ++
      "Use \"git series add series\" or \"git series commit -a\""))⟩
  | some seriesE =>
  match (match tbGet tree "base" with
         | none => Except.ok ()
         | some baseE =>
           if baseE.eid ≠ seriesE.eid && !descendantOf s2 seriesE.eid baseE.eid then
             match commitSummarizeComponents s2 baseE.eid,
                   commitSummarizeComponents s2 seriesE.eid with
             | .ok bp, .ok sp =>
               Except.error (Error.msg ("Cannot commit: base " ++ bp.1 ++
                 " is not an ancestor of patch series " ++ sp.1 ++
                 "\nbase   " ++ bp.1 ++ " " ++ bp.2 ++
                 "\nseries " ++ sp.1 ++ " " ++ sp.2))
             | .error e, _ => Except.error e
             | _, .error e => Except.error e
           else Except.ok ()) with
  | .error e => ⟨s2, [], .error e⟩
  | .ok _ =>
  let msg := msgOf args editorOut
  if msg = "" then
    ⟨s2, [], .error (.msg "Aborting series commit due to empty commit message.")⟩
  else
  match parentsFromIds s2
      ((tree.filter (fun p => p.2.isCommit && p.1 ≠ "base")).map (fun p => p.2.eid)) with
  | .error e => ⟨s2, [], .error e⟩
  | .ok pids =>
  let parentsRef := (match sheadPair with | some pc => [pc.1] | none => []) ++ pids
  let cc := s2.commitCreate treeId parentsRef msg
  let s4 := cc.1.refSet target cc.2
  match (if args.all then Internals.write s4 { ints with staged := tree }
         else (s4, Except.ok ())) with
  | (s5, .error e) => ⟨s5, [], .error e⟩
  | (s5, .ok _) =>
    ⟨s5, ["[" ++ seriesName ++ " " ++ shortIdS cc.2 ++ "] " ++ firstLine msg], .ok ()⟩

/-- The Commit Composer (commit_status in main.rs), both the `commit`
(doStatus = false) and `status` (doStatus = true) entry points.  The external
editor always runs successfully and produces `editorOut`; the scratch-file
contents handed to it are not observable here. -/
def commit_status (s : Store) (args : CommitArgs) (doStatus : Bool) (editorOut : String) :
    OpOut Unit :=
  match s.shead with
  | none => ⟨s, ["No series; use \"git series start <name>\" to start"], .ok ()⟩
  | some target =>
  match sheadSeriesName target with
  | .error e => ⟨s, [], .error e⟩
  | .ok seriesName =>
  match Internals.read s with
  | .error e => ⟨s, [], .error e⟩
  | .ok ints =>
  match s.writeTree ints.working with
  | (s1, workingTid) =>
  match s1.writeTree ints.staged with
  | (s2, stagedTid) =>
  match s2.lookTree workingTid, s2.lookTree stagedTid with
  | some workingTree, some stagedTree =>
    let resolveRes : Except Error (Option (Oid × CommitObj)) :=
      match s2.refTarget target with
      | none => .ok none
      | some hid =>
        match s2.lookCommit hid with
        | none => .error .notFound
        | some c => .ok (some (hid, c))
    match resolveRes with
    | .error e => ⟨s2, [], .error e⟩
    | .ok sheadPair =>
    match (match sheadPair with
           | none => Except.ok (none : Option ObjTree)
           | some pc =>
             match s2.lookTree pc.2.tree with
             | none => Except.error Error.notFound
             | some t => Except.ok (some t)) with
    | .error e => ⟨s2, [], .error e⟩
    | .ok sheadTree =>
      commitStatusTail s2 args doStatus editorOut seriesName target ints sheadPair
        sheadTree workingTid stagedTid workingTree stagedTree
  | _, _ => ⟨s2, [], .error .notFound⟩

/-- Outcome reported by the object store's checkout-tree primitive. -/
inductive CheckoutOutcome where
  | success (dirty : List String)
  | conflict (conflicts : List String)
  | failure (m : String)
deriving Repr, DecidableEq

/-- checkout_tree in main.rs: a checkout conflict prints the conflicting
paths and an actionable message at the point of detection and returns the
tagged CheckoutConflict error; other failures propagate as store errors. -/
def checkout_tree (outcome : CheckoutOutcome) : List String × Except Error Unit :=
  match outcome with
  | .conflict paths =>
    (["error: Your changes to the following files would be overwritten by checkout:"] ++
       paths.map (fun p => "        " ++ p) ++
       ["Please, commit your changes or stash them before you switch series."],
     .error .checkoutConflict)
  | .failure m => ([], .error (.git2 m))
  | .success dirty =>
    ([""] ++
       (if dirty.isEmpty then []
        else ["Files with changes unaffected by checkout:"] ++ dirty.map (fun p => "        " ++ p)),
     .ok ())

/-- The top-level error handling in main(): the two tagged conditions print
nothing further; every other error prints its text; any error exits 1. -/
def mainHandler (r : Except Error Unit) : List String × Nat :=
  match r with
  | .ok _ => ([], 0)
  | .error Error.commitNoChanges => ([], 1)
  | .error Error.checkoutConflict => ([], 1)
  | .error e => ([errText e], 1)

/-- Parent digests of a stored commit ([] when the digest is unknown). -/
def parentIdsOf (s : Store) (c : Oid) : List Oid :=
  match s.lookCommit c with
  | some co => co.parents
  | none => []

/-- Boolean membership on digest lists. -/
def memB (l : List Oid) (x : Oid) : Bool :=
  l.any (fun y => y = x)

/-- Is a commit inside the base..series range (reachable from series, not
reachable from base)? -/
def inRange (s : Store) (series base c : Oid) : Bool :=
  reachB s (s.commits.length + 1) series c && !reachB s (s.commits.length + 1) base c

/-- All stored commits inside the base..series range. -/
def rangeList (s : Store) (series base : Oid) : List Oid :=
  (s.commits.map Prod.fst).filter (inRange s series base)

/-- A commit may be emitted once every in-range parent has been emitted. -/
def kahnReady (s : Store) (range done : List Oid) (c : Oid) : Bool :=
  !memB done c && (parentIdsOf s c).all (fun p => !memB range p || memB done p)

/-- One round of the topological emission. -/
def kahnRound (s : Store) (range done : List Oid) : List Oid :=
  done ++ range.filter (kahnReady s range done)

/-- Iterated rounds of the topological emission. -/
def kahnIter (s : Store) (range : List Oid) : Nat → List Oid
  | 0 => []
  | n + 1 => kahnRound s range (kahnIter s range n)

/-- Model of the revision walk used by rebase: commits of base..series in
topological order with parents before children (SORT_TOPOLOGICAL with
SORT_REVERSE in the source). -/
def topoWalk (s : Store) (series base : Oid) : List Oid :=
  kahnIter s (rangeList s series base) (rangeList s series base).length

/-- The map over the revision walk in rebase: resolve every commit, rejecting
any merge commit (more than one parent) in the range. -/
def collectNonMerge (s : Store) : List Oid → Except Error (List (Oid × CommitObj))
  | [] => .ok []
  | c :: r =>
    match s.lookCommit c with
    | none => .error .notFound
    | some co =>
      if co.parents.length > 1 then
        .error (.msg ("Error: cannot rebase merge commit:\n" ++ shortIdS c ++ " " ++
          firstLine co.message))
      else (collectNonMerge s r).map (fun l => (c, co) :: l)

/-- The REBASE_COMMENT block of main.rs, as lines. -/
def rebaseCommentLines : List String :=
  ["#",
   "# Commands:",
   "# p, pick = use commit",
   "# r, reword = use commit, but edit the commit message",
   "# e, edit = use commit, but stop for amending",
   "# s, squash = use commit, but meld into previous commit",
   "# f, fixup = like \"squash\", but discard this commit's log message",
   "# x, exec = run command (the rest of the line) using shell",
   "# d, drop = remove commit",
   "#",
   "# These lines can be re-ordered; they are executed from top to bottom.",
   "#",
   "# If you remove a line here THAT COMMIT WILL BE LOST.",
   "#",
   "# However, if you remove everything, the rebase will be aborted."]

/-- Repository state as reported by the object store (rebase precondition);
our own in-progress rebase is recognized by the scoped marker file. -/
inductive RepoState where
  | clean
  | rebaseMergeOurs
  | rebaseMergeForeign
  | otherBusy (desc : String)
deriving Repr, DecidableEq

/-- Arguments of the rebase operation (the onto target already revparsed). -/
structure RebaseArgs where
  interactive : Bool
  onto : Option Oid
deriving Repr, DecidableEq

/-- External observations consumed by rebase: repository state, the two
cleanliness diffs, the interactive editor's result (`none` = user kept the
generated plan), the checkout outcome, and the external sequencer's status. -/
structure RebaseEnv where
  repoState : RepoState
  treeToIndexClean : Bool
  indexToWorkdirClean : Bool
  editorOut : Option String
  checkout : CheckoutOutcome
  sequencerOk : Bool
deriving Repr, DecidableEq

/-- The Rebase Plan Builder (rebase in main.rs).  The success value is the
generated plan file (git-rebase-todo) as lines; the sequencing-state files and
the atomic directory rename are file-system effects outside the store model. -/
def rebaseOp (s : Store) (args : RebaseArgs) (env : RebaseEnv) : OpOut (List String) :=
  match env.repoState with
  | .rebaseMergeOurs =>
    ⟨s, [], .error (.msg ("git series rebase already in progress.\n" ++
      "Use \"git rebase --continue\" or \"git rebase --abort\"."))⟩
  | .rebaseMergeForeign => ⟨s, [], .error (.msg "RebaseMerge in progress; cannot rebase")⟩
  | .otherBusy d => ⟨s, [], .error (.msg (d ++ " in progress; cannot rebase"))⟩
  | .clean =>
  match Internals.read s with
  | .error e => ⟨s, [], .error e⟩
  | .ok ints =>
  match tbGet ints.working "series" with
  | none => ⟨s, [], .error (.msg "Could not find entry \"series\" in working index")⟩
  | some series =>
  match tbGet ints.working "base" with
  | none =>
    ⟨s, [], .error (.msg ("Cannot rebase series; no base set.\n" ++
      "Use \"git series base\" to set base."))⟩
  | some base =>
  if series.eid = base.eid then
    ⟨s, [], .error (.msg "No patches to rebase; series and base identical.")⟩
  else if !descendantOf s series.eid base.eid then
    ⟨s, [], .error (.msg ("Cannot rebase: current base " ++ Nat.repr base.eid ++
      " not an ancestor of series " ++ Nat.repr series.eid))⟩
  else
  match s.lookCommit series.eid with
  | none => ⟨s, [], .error .notFound⟩
  | some _ =>
  let unclean :=
    (if !env.treeToIndexClean then ["Cannot rebase: you have unstaged changes."] else []) ++
    (if !env.indexToWorkdirClean then
       (if env.treeToIndexClean then ["Cannot rebase: your index contains uncommitted changes."]
        else ["Additionally, your index contains uncommitted changes."])
     else [])
  if unclean ≠ [] then ⟨s, [], .error (.msg (joinNl unclean))⟩
  else
  match collectNonMerge s (topoWalk s series.eid base.eid) with
  | .error e => ⟨s, [], .error e⟩
  | .ok commits =>
  match (match args.onto with
         | none => Except.ok (none : Option Oid)
         | some o => if s.hasObject o then Except.ok (some o) else Except.error Error.notFound) with
  | .error e => ⟨s, [], .error e⟩
  | .ok onto =>
  let newbase := onto.getD base.eid
  match commitSummarizeComponents s base.eid, commitSummarizeComponents s newbase,
        commitSummarizeComponents s series.eid with
  | .error e, _, _ => ⟨s, [], .error e⟩
  | _, .error e, _ => ⟨s, [], .error e⟩
  | _, _, .error e => ⟨s, [], .error e⟩
  | .ok bp, .ok np, .ok sp =>
  match s.lookCommit newbase with
  | none => ⟨s, [], .error .notFound⟩
  | some _ =>
  let todo :=
    commits.map (fun pc => "pick " ++ shortIdS pc.1 ++ " " ++ firstLine pc.2.message) ++
    (match onto with
     | some o => ["exec git series base " ++ Nat.repr o]
     | none => []) ++
    ["", "# Rebase " ++ bp.1 ++ ".." ++ sp.1 ++ " onto " ++ np.1] ++
    rebaseCommentLines
  let edited := if args.interactive then (env.editorOut.getD (joinNl todo)) else ""
  if args.interactive && messagePrettify edited = "" then
    ⟨s, [], .error (.msg "Nothing to do")⟩
  else
  match checkout_tree env.checkout with
  | (coOut, .error e) => ⟨s, coOut, .error e⟩
  | (coOut, .ok _) =>
  let s1 := s.refSet "HEAD" newbase
  if env.sequencerOk then ⟨s1, coOut, .ok todo⟩
  else ⟨s1, coOut, .error (.msg "git rebase --continue exited with status nonzero")⟩

set_option maxRecDepth 40000

/-- Boolean no-duplicates check on digest lists. -/
def nodupB : List Oid → Bool
  | [] => true
  | x :: r => !memB r x && nodupB r

/-- Store well-formedness: every stored tree and commit digest is below the
next fresh digest, and tree digests are pairwise distinct.  All stores the
program builds satisfy this; it is decidable so witnesses can check it. -/
def Store.wfB (s : Store) : Bool :=
  s.trees.all (fun p => decide (p.1 < s.nextOid)) &&
  s.commits.all (fun p => decide (p.1 < s.nextOid)) &&
  nodupB (s.trees.map Prod.fst)

/-- The tree `t` is stored under digest `tid` (content-addressing witness). -/
def TreeStored (s : Store) (t : ObjTree) (tid : Oid) : Prop :=
  findTreeByContent s.trees t = some (tid, t)

theorem lookOid_mem {α : Type} {l : List (Oid × α)} {k : Oid} {v : α}
    (h : lookOid l k = some v) : (k, v) ∈ l := by
  induction l with
  | nil => simp [lookOid] at h
  | cons p r ih =>
    obtain ⟨k', v'⟩ := p
    by_cases hk : k' = k
    · subst hk
      simp [lookOid] at h
      simp [h]
    · simp [lookOid, hk] at h
      exact List.mem_cons_of_mem _ (ih h)

theorem memB_true_of_mem {l : List Oid} {x : Oid} (h : x ∈ l) : memB l x = true := by
  simpa [memB] using h

theorem mem_lookOid_of_nodup {α : Type} {l : List (Oid × α)} {k : Oid} {v : α}
    (hnd : nodupB (l.map Prod.fst) = true) (h : (k, v) ∈ l) : lookOid l k = some v := by
  induction l with
  | nil => simp at h
  | cons p r ih =>
    obtain ⟨k', v'⟩ := p
    simp [nodupB] at hnd
    rcases List.mem_cons.mp h with he | hm
    · cases he
      simp [lookOid]
    · have hk : k' ≠ k := by
        intro hkk
        subst hkk
        have hmem : memB (r.map Prod.fst) k' = true :=
          memB_true_of_mem (List.mem_map_of_mem Prod.fst hm)
        rw [hnd.1] at hmem
        exact Bool.false_ne_true hmem
      simp [lookOid, hk]
      exact ih hnd.2 hm

theorem lookStr_setStr_self {α : Type} (l : List (String × α)) (n : String) (v : α) :
    lookStr (setStr l n v) n = some v := by
  induction l with
  | nil => simp [setStr, lookStr]
  | cons p r ih =>
    obtain ⟨k, w⟩ := p
    by_cases hk : k = n
    · simp [setStr, hk, lookStr]
    · simp [setStr, hk, lookStr, ih]

theorem lookStr_setStr_ne {α : Type} (l : List (String × α)) (n m : String) (v : α)
    (h : m ≠ n) : lookStr (setStr l n v) m = lookStr l m := by
  induction l with
  | nil => simp [setStr, lookStr, Ne.symm h]
  | cons p r ih =>
    obtain ⟨k, w⟩ := p
    by_cases hk : k = n
    · subst hk
      simp [setStr, lookStr, Ne.symm h]
    · simp [setStr, hk, lookStr]
      by_cases hm : k = m <;> simp [hm, ih]

theorem refTarget_refSet_self (s : Store) (n : String) (v : Oid) :
    (s.refSet n v).refTarget n = some v := by
  simp [Store.refTarget, Store.refSet, lookStr_setStr_self]

theorem refTarget_refSet_ne (s : Store) (n m : String) (v : Oid) (h : m ≠ n) :
    (s.refSet n v).refTarget m = s.refTarget m := by
  simp [Store.refTarget, Store.refSet, lookStr_setStr_ne _ _ _ _ h]

theorem findTreeByContent_snd {l : List (Oid × ObjTree)} {t : ObjTree} {p : Oid × ObjTree}
    (h : findTreeByContent l t = some p) : p.2 = t := by
  induction l with
  | nil => simp [findTreeByContent] at h
  | cons q r ih =>
    by_cases hq : q.2 = t
    · simp [findTreeByContent, hq] at h
      rw [← h]
      exact hq
    · simp [findTreeByContent, hq] at h
      exact ih h

theorem findTreeByContent_mem {l : List (Oid × ObjTree)} {t : ObjTree} {p : Oid × ObjTree}
    (h : findTreeByContent l t = some p) : p ∈ l := by
  induction l with
  | nil => simp [findTreeByContent] at h
  | cons q r ih =>
    by_cases hq : q.2 = t
    · simp [findTreeByContent, hq] at h
      simp [← h]
    · simp [findTreeByContent, hq] at h
      exact List.mem_cons_of_mem _ (ih h)

theorem writeTree_stored {s s' : Store} {t : ObjTree} {tid : Oid}
    (h : s.writeTree t = (s', tid)) : TreeStored s' t tid := by
  unfold Store.writeTree at h
  cases hf : findTreeByContent s.trees t with
  | some p =>
    rw [hf] at h
    cases h
    have h2 := findTreeByContent_snd hf
    unfold TreeStored
    rw [hf, ← h2]
  | none =>
    rw [hf] at h
    cases h
    unfold TreeStored
    simp [findTreeByContent]

theorem writeTree_of_stored {s : Store} {t : ObjTree} {tid : Oid}
    (h : TreeStored s t tid) : s.writeTree t = (s, tid) := by
  unfold Store.writeTree
  rw [h]

theorem writeTree_refs (s : Store) (t : ObjTree) : (s.writeTree t).1.refs = s.refs := by
  unfold Store.writeTree
  cases findTreeByContent s.trees t <;> simp

theorem writeTree_commits (s : Store) (t : ObjTree) :
    (s.writeTree t).1.commits = s.commits := by
  unfold Store.writeTree
  cases findTreeByContent s.trees t <;> simp

theorem writeTree_shead (s : Store) (t : ObjTree) : (s.writeTree t).1.shead = s.shead := by
  unfold Store.writeTree
  cases findTreeByContent s.trees t <;> simp

theorem writeTree_refTarget (s : Store) (t : ObjTree) (n : String) :
    (s.writeTree t).1.refTarget n = s.refTarget n := by
  simp [Store.refTarget, writeTree_refs]

theorem writeTree_lookCommit (s : Store) (t : ObjTree) (id : Oid) :
    (s.writeTree t).1.lookCommit id = s.lookCommit id := by
  simp [Store.lookCommit, writeTree_commits]

theorem wfB_parts {s : Store} (hwf : s.wfB = true) :
    (∀ p ∈ s.trees, p.1 < s.nextOid) ∧ (∀ p ∈ s.commits, p.1 < s.nextOid) ∧
      nodupB (s.trees.map Prod.fst) = true := by
  unfold Store.wfB at hwf
  simp [List.all_eq_true] at hwf
  exact ⟨fun p hp => hwf.1.1 p.1 p.2 hp, fun p hp => hwf.1.2 p.1 p.2 hp, hwf.2⟩

theorem wfB_of_parts {s : Store}
    (h1 : ∀ p ∈ s.trees, p.1 < s.nextOid) (h2 : ∀ p ∈ s.commits, p.1 < s.nextOid)
    (h3 : nodupB (s.trees.map Prod.fst) = true) : s.wfB = true := by
  unfold Store.wfB
  simp [List.all_eq_true]
  exact ⟨⟨fun a b h => h1 (a, b) h, fun a b h => h2 (a, b) h⟩, h3⟩

theorem wfB_lookTree_lt {s : Store} (hwf : s.wfB = true) {id : Oid} {t : ObjTree}
    (h : s.lookTree id = some t) : id < s.nextOid :=
  (wfB_parts hwf).1 (id, t) (lookOid_mem h)

theorem wfB_lookCommit_lt {s : Store} (hwf : s.wfB = true) {id : Oid} {c : CommitObj}
    (h : s.lookCommit id = some c) : id < s.nextOid :=
  (wfB_parts hwf).2.1 (id, c) (lookOid_mem h)

theorem lookTree_of_stored {s : Store} {t : ObjTree} {tid : Oid}
    (hwf : s.wfB = true) (h : TreeStored s t tid) : s.lookTree tid = some t :=
  mem_lookOid_of_nodup (wfB_parts hwf).2.2 (findTreeByContent_mem h)

theorem wfB_writeTree {s : Store} (hwf : s.wfB = true) (t : ObjTree) :
    (s.writeTree t).1.wfB = true := by
  obtain ⟨h1, h2, h3⟩ := wfB_parts hwf
  unfold Store.writeTree
  cases hf : findTreeByContent s.trees t with
  | some p => simpa using hwf
  | none =>
    simp
    apply wfB_of_parts
    · intro p hp
      simp at hp
      rcases hp with he | hm
      · simp [he]
      · exact Nat.lt_succ_of_lt (h1 p hm)
    · intro p hp
      exact Nat.lt_succ_of_lt (h2 p hp)
    · simp [nodupB, h3]
      cases hmem : memB (List.map Prod.fst s.trees) s.nextOid with
      | false => rfl
      | true =>
        exfalso
        simp [memB] at hmem
        obtain ⟨x, hp⟩ := hmem
        have := h1 (s.nextOid, x) hp
        simp at this

theorem wfB_commitCreate {s : Store} (hwf : s.wfB = true) (tr : Oid) (ps : List Oid)
    (m : String) : (s.commitCreate tr ps m).1.wfB = true := by
  obtain ⟨h1, h2, h3⟩ := wfB_parts hwf
  unfold Store.commitCreate
  apply wfB_of_parts
  · intro p hp
    exact Nat.lt_succ_of_lt (h1 p hp)
  · intro p hp
    simp at hp
    rcases hp with he | hm
    · simp [he]
    · exact Nat.lt_succ_of_lt (h2 p hm)
  · exact h3

theorem wfB_refSet {s : Store} (hwf : s.wfB = true) (n : String) (v : Oid) :
    (s.refSet n v).wfB = true := by
  obtain ⟨h1, h2, h3⟩ := wfB_parts hwf
  exact wfB_of_parts h1 h2 h3

theorem TreeStored_writeTree {s : Store} {t : ObjTree} {tid : Oid} (u : ObjTree)
    (h : TreeStored s t tid) : TreeStored (s.writeTree u).1 t tid := by
  unfold Store.writeTree
  cases hf : findTreeByContent s.trees u with
  | some p => simpa using h
  | none =>
    simp
    unfold TreeStored at h ⊢
    have hne : u ≠ t := by
      intro he
      rw [he] at hf
      rw [h] at hf
      cases hf
    simp [findTreeByContent, hne, h]

theorem TreeStored_commitCreate {s : Store} {t : ObjTree} {tid : Oid} (tr : Oid)
    (ps : List Oid) (m : String) (h : TreeStored s t tid) :
    TreeStored (s.commitCreate tr ps m).1 t tid := h

theorem TreeStored_refSet {s : Store} {t : ObjTree} {tid : Oid} (n : String) (v : Oid)
    (h : TreeStored s t tid) : TreeStored (s.refSet n v) t tid := h

theorem commitCreate_lookup_new (s : Store) (tr : Oid) (ps : List Oid) (m : String) :
    (s.commitCreate tr ps m).1.lookCommit (s.commitCreate tr ps m).2 =
      some ⟨tr, ps, m⟩ := by
  simp [Store.commitCreate, Store.lookCommit, lookOid]

theorem lookCommit_commitCreate_old {s : Store} {id : Oid} {c : CommitObj}
    (hlt : id < s.nextOid) (h : s.lookCommit id = some c) (tr : Oid) (ps : List Oid)
    (m : String) : (s.commitCreate tr ps m).1.lookCommit id = some c := by
  have hne : s.nextOid ≠ id := Nat.ne_of_gt hlt
  simp [Store.commitCreate, Store.lookCommit, lookOid, hne] at h ⊢
  exact h

theorem commitCreate_refTarget (s : Store) (tr : Oid) (ps : List Oid) (m : String)
    (n : String) : (s.commitCreate tr ps m).1.refTarget n = s.refTarget n := rfl

theorem commitCreate_shead (s : Store) (tr : Oid) (ps : List Oid) (m : String) :
    (s.commitCreate tr ps m).1.shead = s.shead := rfl

theorem refSet_lookCommit (s : Store) (n : String) (v : Oid) (id : Oid) :
    (s.refSet n v).lookCommit id = s.lookCommit id := rfl

theorem refSet_lookTree (s : Store) (n : String) (v : Oid) (id : Oid) :
    (s.refSet n v).lookTree id = s.lookTree id := rfl

theorem refSet_shead (s : Store) (n : String) (v : Oid) :
    (s.refSet n v).shead = s.shead := rfl

/-- Post-state facts of a successful maybe_commit on one snapshot: the store
stays well-formed, SHEAD is untouched, the builder's finalized tree is stored
and is the tree of the commit now on the reference, other references are
untouched, and all previously stored trees and commits survive. -/
structure MCPost (s s' : Store) (r : String) (tb : TreeBuilder) : Prop where
  wfp : s'.wfB = true
  shead_eq : s'.shead = s.shead
  stored : ∃ tid id c, TreeStored s' tb tid ∧ s'.refTarget r = some id ∧
    s'.lookCommit id = some c ∧ c.tree = tid
  refs_other : ∀ n, n ≠ r → s'.refTarget n = s.refTarget n
  trees_mono : ∀ t t2, TreeStored s t t2 → TreeStored s' t t2
  commits_mono : ∀ id c, s.lookCommit id = some c → s'.lookCommit id = some c

theorem mcc_eq_create {s1 : Store} {r : String} {tid : Oid} {old : Option Oid}
    {t : ObjTree} {pids : List Oid}
    (ht : s1.lookTree tid = some t)
    (hp : parentsFromIds s1 (treeCommitIds t) = .ok pids)
    (hold : ∀ id, old = some id → s1.refTarget r = some id) :
    maybeCommitCreate s1 r tid old =
      ((s1.commitCreate tid pids r).1.refSet r (s1.commitCreate tid pids r).2, .ok ()) := by
  unfold maybeCommitCreate
  simp only [ht, hp]
  cases old with
  | none => simp [referenceMatchingOpt]
  | some id =>
    have hcur := hold id rfl
    simp [referenceMatchingOpt, commitCreate_refTarget, hcur]

theorem mcc_post {s1 s' : Store} {r : String} {tid : Oid} {old : Option Oid}
    (hwf : s1.wfB = true)
    (hold : ∀ id, old = some id → s1.refTarget r = some id)
    (h : maybeCommitCreate s1 r tid old = (s', .ok ())) :
    s'.wfB = true ∧ s'.shead = s1.shead ∧
      (∃ nid pids, s'.refTarget r = some nid ∧ s'.lookCommit nid = some ⟨tid, pids, r⟩) ∧
      (∀ n, n ≠ r → s'.refTarget n = s1.refTarget n) ∧
      (∀ t t2, TreeStored s1 t t2 → TreeStored s' t t2) ∧
      (∀ id c, s1.lookCommit id = some c → s'.lookCommit id = some c) := by
  unfold maybeCommitCreate at h
  cases ht : s1.lookTree tid with
  | none =>
    simp [ht] at h
  | some t =>
    simp only [ht] at h
    cases hp : parentsFromIds s1 (treeCommitIds t) with
    | error e =>
      simp [hp] at h
    | ok pids =>
      have heq := mcc_eq_create ht hp hold
      unfold maybeCommitCreate at heq
      simp only [ht, hp] at heq h
      rw [heq] at h
      cases h
      refine ⟨?_, ?_, ?_, ?_, ?_, ?_⟩
      · exact wfB_refSet (wfB_commitCreate hwf tid pids r) r _
      · rw [refSet_shead, commitCreate_shead]
      · refine ⟨(s1.commitCreate tid pids r).2, pids, refTarget_refSet_self _ _ _, ?_⟩
        rw [refSet_lookCommit]
        exact commitCreate_lookup_new s1 tid pids r
      · intro n hn
        rw [refTarget_refSet_ne _ _ _ _ hn, commitCreate_refTarget]
      · intro u u2 hu
        exact TreeStored_refSet _ _ (TreeStored_commitCreate _ _ _ hu)
      · intro id c hc
        rw [refSet_lookCommit]
        exact lookCommit_commitCreate_old (wfB_lookCommit_lt hwf hc) hc tid pids r

theorem maybeCommit_eq_skip {s s1 : Store} {r : String} {tb : TreeBuilder} {tid id : Oid}
    {c : CommitObj} (hw : s.writeTree tb = (s1, tid)) (hr : s1.refTarget r = some id)
    (hc : s1.lookCommit id = some c) (he : c.tree = tid) :
    maybeCommit s r tb = (s1, .ok ()) := by
  unfold maybeCommit
  rw [hw]
  simp [hr, hc, he]

theorem maybeCommit_eq_create_some {s s1 : Store} {r : String} {tb : TreeBuilder}
    {tid id : Oid} {c : CommitObj} (hw : s.writeTree tb = (s1, tid))
    (hr : s1.refTarget r = some id) (hc : s1.lookCommit id = some c) (he : c.tree ≠ tid) :
    maybeCommit s r tb = maybeCommitCreate s1 r tid (some id) := by
  unfold maybeCommit
  rw [hw]
  simp [hr, hc, he]

theorem maybeCommit_eq_create_none {s s1 : Store} {r : String} {tb : TreeBuilder}
    {tid : Oid} (hw : s.writeTree tb = (s1, tid)) (hr : s1.refTarget r = none) :
    maybeCommit s r tb = maybeCommitCreate s1 r tid none := by
  unfold maybeCommit
  rw [hw]
  simp [hr]

theorem maybeCommit_of_stored {s : Store} {r : String} {tb : TreeBuilder} {tid id : Oid}
    {c : CommitObj} (hst : TreeStored s tb tid) (hr : s.refTarget r = some id)
    (hc : s.lookCommit id = some c) (he : c.tree = tid) :
    maybeCommit s r tb = (s, .ok ()) :=
  maybeCommit_eq_skip (writeTree_of_stored hst) hr hc he

theorem maybeCommit_post {s s' : Store} {r : String} {tb : TreeBuilder}
    (hwf : s.wfB = true) (hmc : maybeCommit s r tb = (s', .ok ())) :
    MCPost s s' r tb := by
  cases hw : s.writeTree tb with
  | mk s1 tid =>
  have hwf1 : s1.wfB = true := by
    have h := wfB_writeTree hwf tb
    rw [hw] at h
    exact h
  have hsh1 : s1.shead = s.shead := by
    have h := writeTree_shead s tb
    rw [hw] at h
    exact h
  have hrt1 : ∀ n, s1.refTarget n = s.refTarget n := by
    intro n
    have h := writeTree_refTarget s tb n
    rw [hw] at h
    exact h
  have hlc1 : ∀ id, s1.lookCommit id = s.lookCommit id := by
    intro id
    have h := writeTree_lookCommit s tb id
    rw [hw] at h
    exact h
  have hstored1 : TreeStored s1 tb tid := writeTree_stored hw
  have htm1 : ∀ t t2, TreeStored s t t2 → TreeStored s1 t t2 := by
    intro t t2 h
    have h2 := TreeStored_writeTree tb h
    rw [hw] at h2
    exact h2
  cases hr : s1.refTarget r with
  | some id =>
    cases hc : s1.lookCommit id with
    | none =>
      exfalso
      unfold maybeCommit at hmc
      rw [hw] at hmc
      simp [hr, hc] at hmc
    | some c =>
      by_cases he : c.tree = tid
      · have heq := maybeCommit_eq_skip hw hr hc he
        rw [heq] at hmc
        cases hmc
        exact ⟨hwf1, hsh1, ⟨tid, id, c, hstored1, hr, hc, he⟩,
          fun n _ => hrt1 n, htm1, fun id2 c2 h2 => by rw [hlc1]; exact h2⟩
      · have heq := maybeCommit_eq_create_some hw hr hc he
        rw [heq] at hmc
        obtain ⟨wf2, sh2, ⟨nid, pids, hrt2, hlk2⟩, refo2, tm2, cm2⟩ :=
          mcc_post hwf1 (fun id2 h2 => by cases h2; exact hr) hmc
        refine ⟨wf2, sh2.trans hsh1, ⟨tid, nid, ⟨tid, pids, r⟩, ?_, hrt2, hlk2, rfl⟩,
          ?_, ?_, ?_⟩
        · exact tm2 tb tid hstored1
        · intro n hn
          rw [refo2 n hn, hrt1 n]
        · intro t t2 h2
          exact tm2 t t2 (htm1 t t2 h2)
        · intro id2 c2 h2
          apply cm2
          rw [hlc1]
          exact h2
  | none =>
    have heq := maybeCommit_eq_create_none hw hr
    rw [heq] at hmc
    obtain ⟨wf2, sh2, ⟨nid, pids, hrt2, hlk2⟩, refo2, tm2, cm2⟩ :=
      mcc_post hwf1 (fun id2 h2 => by cases h2) hmc
    refine ⟨wf2, sh2.trans hsh1, ⟨tid, nid, ⟨tid, pids, r⟩, ?_, hrt2, hlk2, rfl⟩,
      ?_, ?_, ?_⟩
    · exact tm2 tb tid hstored1
    · intro n hn
      rw [refo2 n hn, hrt1 n]
    · intro t t2 h2
      exact tm2 t t2 (htm1 t t2 h2)
    · intro id2 c2 h2
      apply cm2
      rw [hlc1]
      exact h2

theorem stagedRef_ne_workingRef (name : String) :
    stagedRefPre ++ name ≠ workingRefPre ++ name := by
  intro he
  have h : (stagedRefPre ++ name).length = (workingRefPre ++ name).length := by rw [he]
  rw [String.length_append, String.length_append] at h
  have h2 : stagedRefPre.length = workingRefPre.length := by omega
  exact absurd h2 (by decide)

/-- Post-state of a successful Internals::write: the store stays well formed,
and for each snapshot the reference now carries a commit whose tree is exactly
the snapshot's finalized tree. -/
theorem write_post {s s1 : Store} {ints : Internals} {tgt name : String}
    (hwf : s.wfB = true) (hsh : s.shead = some tgt)
    (hn : sheadSeriesName tgt = .ok name)
    (hw : Internals.write s ints = (s1, .ok ())) :
    s1.wfB = true ∧ s1.shead = s.shead ∧
      (∃ tid id c, TreeStored s1 ints.staged tid ∧
        s1.refTarget (stagedRefPre ++ name) = some id ∧
        s1.lookCommit id = some c ∧ c.tree = tid) ∧
      (∃ tid id c, TreeStored s1 ints.working tid ∧
        s1.refTarget (workingRefPre ++ name) = some id ∧
        s1.lookCommit id = some c ∧ c.tree = tid) := by
  unfold Internals.write at hw
  simp only [hsh, hn] at hw
  cases hA : maybeCommit s (stagedRefPre ++ name) ints.staged with
  | mk sA rA =>
  cases rA with
  | error e =>
    simp only [hA] at hw
    cases hw
  | ok u =>
    simp only [hA] at hw
    obtain ⟨u⟩ := u
    have postA := maybeCommit_post hwf hA
    have postW := maybeCommit_post postA.wfp hw
    obtain ⟨tidS, idS, cS, hstS, hrtS, hlkS, htrS⟩ := postA.stored
    obtain ⟨tidW, idW, cW, hstW, hrtW, hlkW, htrW⟩ := postW.stored
    refine ⟨postW.wfp, postW.shead_eq.trans postA.shead_eq, ⟨tidS, idS, cS, ?_, ?_, ?_, htrS⟩,
      ⟨tidW, idW, cW, hstW, hrtW, hlkW, htrW⟩⟩
    · exact postW.trees_mono _ _ hstS
    · rw [postW.refs_other _ (stagedRef_ne_workingRef name)]
      exact hrtS
    · exact postW.commits_mono _ _ hlkS

/-- C4 — Idempotence of persist: a second Internals::write with the same
(unmutated) tree builders is a complete no-op: each snapshot's reference
already carries a commit with the identical finalized tree digest, so no tree
or commit object is added and no reference is updated — the store is returned
exactly as it was. -/
theorem c4_theorem (s s1 : Store) (ints : Internals) (tgt name : String)
    (hwf : s.wfB = true) (hsh : s.shead = some tgt)
    (hn : sheadSeriesName tgt = .ok name)
    (hw : Internals.write s ints = (s1, .ok ())) :
    Internals.write s1 ints = (s1, .ok ()) := by
  obtain ⟨hwf1, hsh1, ⟨tidS, idS, cS, hstS, hrtS, hlkS, htrS⟩,
    ⟨tidW, idW, cW, hstW, hrtW, hlkW, htrW⟩⟩ := write_post hwf hsh hn hw
  have hskipS : maybeCommit s1 (stagedRefPre ++ name) ints.staged = (s1, .ok ()) :=
    maybeCommit_of_stored hstS hrtS hlkS htrS
  have hskipW : maybeCommit s1 (workingRefPre ++ name) ints.working = (s1, .ok ()) :=
    maybeCommit_of_stored hstW hrtW hlkW htrW
  unfold Internals.write
  simp only [hsh1.trans hsh, hn, hskipS, hskipW]

/-- C3 — Round-trip: persisting the two snapshots and then freshly loading the
same series yields exactly the written slot mappings. -/
theorem c3_theorem (s s1 : Store) (ints : Internals) (tgt name : String)
    (hwf : s.wfB = true) (hsh : s.shead = some tgt)
    (hn : sheadSeriesName tgt = .ok name)
    (hw : Internals.write s ints = (s1, .ok ())) :
    Internals.read_series s1 name = .ok ints := by
  obtain ⟨hwf1, hsh1, ⟨tidS, idS, cS, hstS, hrtS, hlkS, htrS⟩,
    ⟨tidW, idW, cW, hstW, hrtW, hlkW, htrW⟩⟩ := write_post hwf hsh hn hw
  have hrdS : readTB s1 (stagedRefPre ++ name) = .ok ints.staged := by
    unfold readTB
    simp only [hrtS, hlkS, htrS, lookTree_of_stored hwf1 hstS]
  have hrdW : readTB s1 (workingRefPre ++ name) = .ok ints.working := by
    unfold readTB
    simp only [hrtW, hlkW, htrW, lookTree_of_stored hwf1 hstW]
  unfold Internals.read_series
  simp only [hrdS, hrdW]

/-- Shorthand: a commit-kind (gitlink) tree entry. -/
def te (id : Oid) : TreeEntry := ⟨id, gitFilemodeCommit⟩

/-- Snapshot tree with only a `series` slot pointing at commit 2. -/
def tSeries2 : ObjTree := [("series", te 2)]

/-- Snapshot tree with only a `series` slot pointing at commit 3. -/
def tSeries3 : ObjTree := [("series", te 3)]

/-- A small well-formed store: a two-commit chain 1 ← 2 on HEAD, an unrelated
root 3, and series "x" with both snapshot references on commit 10 whose tree
is `tSeries2`. -/
def w0 : Store :=
  { trees := [(100, []), (101, tSeries2), (102, tSeries3)],
    commits := [(1, ⟨100, [], "initial"⟩), (2, ⟨100, [1], "second"⟩),
                (3, ⟨100, [], "other root"⟩), (10, ⟨101, [2], "snapshot"⟩)],
    refs := [("HEAD", 2), ("refs/git-series-internals/staged/x", 10),
             ("refs/git-series-internals/working/x", 10)],
    shead := some "refs/heads/git-series/x",
    nextOid := 200 }

/-- Mutated snapshot pair: staged gained a `base` slot, working unchanged. -/
def wInts : Internals :=
  ⟨[("base", te 1), ("series", te 2)], [("series", te 2)]⟩

/-- Witness for C4 at a concrete store: after a first write that creates a
commit for the mutated staged snapshot, a second write is a complete no-op. -/
theorem c4_witness :
    Internals.write ((Internals.write w0 wInts).1) wInts =
      ((Internals.write w0 wInts).1, .ok ()) :=
  c4_theorem w0 (Internals.write w0 wInts).1 wInts "refs/heads/git-series/x" "x"
    (by decide) rfl rfl rfl

/-- Witness for C3 at a concrete store: the freshly loaded series equals the
written snapshot pair. -/
theorem c3_witness :
    Internals.read_series ((Internals.write w0 wInts).1) "x" = .ok wInts :=
  c3_theorem w0 (Internals.write w0 wInts).1 wInts "refs/heads/git-series/x" "x"
    (by decide) rfl rfl rfl

/-- C1 (amended) — For each snapshot whose finalized tree digest differs from
the tree of the commit currently on its reference (or whose reference does
not exist), maybe_commit creates a new commit whose tree is the finalized
snapshot and whose parent set is exactly the commit-kind entries of that
tree, sorted and de-duplicated, and attaches it to the reference by an atomic
compare-and-swap whose expected prior value is the digest read from the
reference at the start of the write operation itself — not the digest read at
load time: `Internals` keeps no load-time digests, so `write` re-reads each
reference and swaps against that freshly read value (a concurrent update
between load and write is therefore not detected; see the counterexample). -/
theorem c1_theorem :
    (∀ (s s1 : Store) (r : String) (tb : TreeBuilder) (tid id : Oid) (c : CommitObj)
       (t : ObjTree) (pids : List Oid),
       s.writeTree tb = (s1, tid) →
       s1.refTarget r = some id →
       s1.lookCommit id = some c →
       c.tree ≠ tid →
       s1.lookTree tid = some t →
       parentsFromIds s1 (treeCommitIds t) = .ok pids →
       maybeCommit s r tb =
         ((s1.commitCreate tid pids r).1.refSet r (s1.commitCreate tid pids r).2,
          .ok ()) ∧
       pids = oidSortDedup (treeCommitIds t) ∧
       ((s1.commitCreate tid pids r).1.refSet r
           (s1.commitCreate tid pids r).2).refTarget r =
         some (s1.commitCreate tid pids r).2 ∧
       ((s1.commitCreate tid pids r).1.refSet r
           (s1.commitCreate tid pids r).2).lookCommit (s1.commitCreate tid pids r).2 =
         some ⟨tid, pids, r⟩) ∧
    (∀ (s s1 : Store) (r : String) (tb : TreeBuilder) (tid : Oid)
       (t : ObjTree) (pids : List Oid),
       s.writeTree tb = (s1, tid) →
       s1.refTarget r = none →
       s1.lookTree tid = some t →
       parentsFromIds s1 (treeCommitIds t) = .ok pids →
       maybeCommit s r tb =
         ((s1.commitCreate tid pids r).1.refSet r (s1.commitCreate tid pids r).2,
          .ok ()) ∧
       pids = oidSortDedup (treeCommitIds t)) := by
  constructor
  · intro s s1 r tb tid id c t pids hw hr hc he ht hp
    have hsorted : pids = oidSortDedup (treeCommitIds t) := by
      unfold parentsFromIds at hp
      by_cases hall : (oidSortDedup (treeCommitIds t)).all
          (fun p => (s1.lookCommit p).isSome) = true
      · simp [hall] at hp
        exact hp.symm
      · simp [hall] at hp
    refine ⟨?_, hsorted, refTarget_refSet_self _ _ _, ?_⟩
    · rw [maybeCommit_eq_create_some hw hr hc he]
      exact mcc_eq_create ht hp (fun id2 h2 => by cases h2; exact hr)
    · rw [refSet_lookCommit]
      exact commitCreate_lookup_new s1 tid pids r
  · intro s s1 r tb tid t pids hw hr ht hp
    have hsorted : pids = oidSortDedup (treeCommitIds t) := by
      unfold parentsFromIds at hp
      by_cases hall : (oidSortDedup (treeCommitIds t)).all
          (fun p => (s1.lookCommit p).isSome) = true
      · simp [hall] at hp
        exact hp.symm
      · simp [hall] at hp
    refine ⟨?_, hsorted⟩
    rw [maybeCommit_eq_create_none hw hr]
    exact mcc_eq_create ht hp (fun id2 h2 => by cases h2)

/-- The store a hypothetical concurrent writer produced between load and
write: identical to `w0` except that the staged reference moved to commit 12,
whose tree is `tSeries3`. -/
def c1WriteStore : Store :=
  { trees := [(100, []), (101, tSeries2), (102, tSeries3)],
    commits := [(1, ⟨100, [], "initial"⟩), (2, ⟨100, [1], "second"⟩),
                (3, ⟨100, [], "other root"⟩), (10, ⟨101, [2], "snapshot"⟩),
                (12, ⟨102, [3], "interloper"⟩)],
    refs := [("HEAD", 2), ("refs/git-series-internals/staged/x", 12),
             ("refs/git-series-internals/working/x", 10)],
    shead := some "refs/heads/git-series/x",
    nextOid := 200 }

/-- The snapshot pair as loaded from `w0` (both snapshots are `tSeries2`). -/
def c1Ints : Internals := ⟨tSeries2, tSeries2⟩

/-- Counterexample for C1 as stated.  The snapshots are loaded from `w0`,
where the staged reference holds digest 10.  Before the persist, a concurrent
writer moves the staged reference to digest 12 (store `c1WriteStore`).  If the
compare-and-swap used "the digest read at load time" (10) as its expected
prior value, this write would fail, because the reference now holds 12.
Instead the write succeeds and silently overwrites the reference with the new
commit (digest 200): Internals::write re-reads the reference inside `write`
and uses that write-time digest as the expected prior value. -/
theorem c1_counterexample :
    Internals.read_series w0 "x" = .ok c1Ints ∧
    w0.refTarget (stagedRefPre ++ "x") = some 10 ∧
    c1WriteStore.refTarget (stagedRefPre ++ "x") = some 12 ∧
    (Internals.write c1WriteStore c1Ints).2 = .ok () ∧
    (Internals.write c1WriteStore c1Ints).1.refTarget (stagedRefPre ++ "x") = some 200 :=
  ⟨rfl, rfl, rfl, rfl, rfl⟩

/-- Witness for C1 (amended) at a concrete input: the staged snapshot of
`c1WriteStore` has a differing tree on its reference, so a commit with the
sorted de-duplicated commit-kind parents is created and swapped in. -/
theorem c1_witness :
    maybeCommit c1WriteStore (stagedRefPre ++ "x") c1Ints.staged =
      ((c1WriteStore.commitCreate 101 [2] (stagedRefPre ++ "x")).1.refSet
         (stagedRefPre ++ "x") (c1WriteStore.commitCreate 101 [2] (stagedRefPre ++ "x")).2,
       .ok ()) ∧
    [2] = oidSortDedup (treeCommitIds tSeries2) ∧
    ((c1WriteStore.commitCreate 101 [2] (stagedRefPre ++ "x")).1.refSet
        (stagedRefPre ++ "x") (c1WriteStore.commitCreate 101 [2] (stagedRefPre ++ "x")).2).refTarget
        (stagedRefPre ++ "x") =
      some (c1WriteStore.commitCreate 101 [2] (stagedRefPre ++ "x")).2 ∧
    ((c1WriteStore.commitCreate 101 [2] (stagedRefPre ++ "x")).1.refSet
        (stagedRefPre ++ "x") (c1WriteStore.commitCreate 101 [2] (stagedRefPre ++ "x")).2).lookCommit
        (c1WriteStore.commitCreate 101 [2] (stagedRefPre ++ "x")).2 =
      some ⟨101, [2], stagedRefPre ++ "x"⟩ :=
  c1_theorem.1 c1WriteStore c1WriteStore (stagedRefPre ++ "x") c1Ints.staged 101 12
    ⟨102, [3], "interloper"⟩ tSeries2 [2] rfl rfl rfl (by decide) rfl rfl

/-- C9 — For every series name, when SHEAD symbolically designates that
series, the delete operation fails with the "detach first" error and deletes
no references: the store is returned unchanged. -/
theorem c9_theorem (s : Store) (name tgt : String)
    (hsh : s.shead = some tgt) (hn : sheadSeriesName tgt = .ok name) :
    deleteOp s name =
      (s, .error (.msg ("Cannot delete the current series \"" ++ name ++
        "\"; detach first."))) := by
  unfold deleteOp
  simp [hsh, hn]

/-- Witness for C9: deleting the active series "x" of `w0` is refused. -/
theorem c9_witness :
    deleteOp w0 "x" =
      (w0, .error (.msg ("Cannot delete the current series \"" ++ "x" ++
        "\"; detach first."))) :=
  c9_theorem w0 "x" "refs/heads/git-series/x" rfl rfl

theorem tbGet_isSome_iff_tbRemove (tb : TreeBuilder) (n : String) :
    (tbGet tb n).isSome = (tbRemove tb n).isSome := by
  induction tb with
  | nil => rfl
  | cons p r ih =>
    obtain ⟨m, e⟩ := p
    by_cases h : m = n
    · simp [tbGet, tbRemove, h]
    · simp [tbGet, tbRemove, h, ih]

/-- C10 — A path absent from the working snapshot never makes `add` fail:
when the path is present in the staged snapshot it is removed from it, and
when it is absent from both the staged snapshot is left unchanged (the
removal is guarded by a presence check). -/
theorem c10_theorem :
    (∀ (ints : Internals) (file : String),
       tbGet ints.working file = none → tbGet ints.staged file = none →
       addOne ints file = .ok ints) ∧
    (∀ (ints : Internals) (file : String) (st2 : TreeBuilder),
       tbGet ints.working file = none → tbRemove ints.staged file = some st2 →
       addOne ints file = .ok { ints with staged := st2 }) ∧
    (∀ (ints : Internals) (file : String),
       tbGet ints.working file = none →
       ∃ i2, addOne ints file = .ok i2) := by
  refine ⟨?_, ?_, ?_⟩
  · intro ints file hw hs
    simp [addOne, hw, hs]
  · intro ints file st2 hw hr
    have hs : (tbGet ints.staged file).isSome = true := by
      rw [tbGet_isSome_iff_tbRemove, hr]
      rfl
    simp [addOne, hw, hs, hr]
  · intro ints file hw
    cases hs : tbGet ints.staged file with
    | none => exact ⟨ints, by simp [addOne, hw, hs]⟩
    | some e =>
      have hsome : (tbRemove ints.staged file).isSome = true := by
        rw [← tbGet_isSome_iff_tbRemove, hs]
        rfl
      cases hr : tbRemove ints.staged file with
      | none => rw [hr] at hsome; cases hsome
      | some st2 =>
        refine ⟨{ ints with staged := st2 }, ?_⟩
        have hs2 : (tbGet ints.staged file).isSome = true := by rw [hs]; rfl
        simp [addOne, hw, hs2, hr]

/-- Witness for C10: removing a staged-only path "cover" succeeds and removes
it; a path "base" absent from both snapshots is a silent no-op. -/
theorem c10_witness :
    addOne ⟨[("cover", ⟨7, gitFilemodeBlob⟩)], []⟩ "cover" =
      .ok ⟨[], []⟩ ∧
    addOne ⟨[("cover", ⟨7, gitFilemodeBlob⟩)], []⟩ "base" =
      .ok ⟨[("cover", ⟨7, gitFilemodeBlob⟩)], []⟩ :=
  ⟨c10_theorem.2.1 ⟨[("cover", ⟨7, gitFilemodeBlob⟩)], []⟩ "cover" [] rfl rfl,
   c10_theorem.1 ⟨[("cover", ⟨7, gitFilemodeBlob⟩)], []⟩ "base" rfl rfl⟩

/-- C6 — Setting the base to a commit that is neither the working `series`
commit nor an ancestor of it fails with the ancestry error and leaves the
store (all references, hence a subsequent read) exactly unchanged, printing
nothing. -/
theorem c6_theorem (s : Store) (b : Oid) (ints : Internals) (se : TreeEntry)
    (hread : Internals.read s = .ok ints)
    (hobj : s.hasObject b = true)
    (hse : tbGet ints.working "series" = some se)
    (hne : b ≠ se.eid)
    (hdesc : descendantOf s se.eid b = false) :
    baseOp s ⟨false, some b⟩ =
      ⟨s, [], .error (.msg ("Cannot set base to " ++ Nat.repr b ++
        ": not an ancestor of the patch series " ++ Nat.repr se.eid))⟩ := by
  unfold baseOp
  simp [hread, hobj, hse, hne, hdesc]

/-- Witness for C6: commit 3 is not an ancestor of the series tip 2 of `w0`,
so setting the base to it fails and the store is untouched. -/
theorem c6_witness :
    baseOp w0 ⟨false, some 3⟩ =
      ⟨w0, [], .error (.msg ("Cannot set base to " ++ Nat.repr 3 ++
        ": not an ancestor of the patch series " ++ Nat.repr 2))⟩ :=
  c6_theorem w0 3 ⟨tSeries2, tSeries2⟩ (te 2) rfl rfl rfl (by decide) rfl

/-- C8 — Exactly the two tagged conditions (no changes to commit, checkout
conflict) are expected, already-reported outcomes: the top level prints
nothing for them and prints the error text for every other error kind, always
exiting non-zero on error; the explanatory text of both conditions is emitted
at the point of detection (by commit_status and checkout_tree respectively). -/
theorem c8_theorem :
    (∀ e : Error, (mainHandler (.error e)).2 = 1) ∧
    (∀ e : Error, (mainHandler (.error e)).1 = [] ↔
      (e = .commitNoChanges ∨ e = .checkoutConflict)) ∧
    mainHandler (.ok ()) = ([], 0) ∧
    (∀ paths : List String, checkout_tree (.conflict paths) =
      (["error: Your changes to the following files would be overwritten by checkout:"] ++
         paths.map (fun p => "        " ++ p) ++
         ["Please, commit your changes or stash them before you switch series."],
       .error .checkoutConflict)) ∧
    (∀ (s : Store) (args : CommitArgs) (ed : String) (tgt name : String)
       (ints : Internals) (s1 : Store) (wtid : Oid) (s2 : Store) (stid : Oid)
       (wt st : ObjTree) (hid : Oid) (hc : CommitObj) (ht : ObjTree),
       s.shead = some tgt → sheadSeriesName tgt = .ok name →
       Internals.read s = .ok ints →
       s.writeTree ints.working = (s1, wtid) →
       s1.writeTree ints.staged = (s2, stid) →
       s2.lookTree wtid = some wt → s2.lookTree stid = some st →
       s2.refTarget tgt = some hid → s2.lookCommit hid = some hc →
       s2.lookTree hc.tree = some ht →
       args.all = false →
       diffTT (some ht) st = [] →
       diffTT (some st) wt = [] →
       (commit_status s args false ed).res = .error .commitNoChanges ∧
       "nothing to commit; series unchanged" ∈ (commit_status s args false ed).out) := by
  refine ⟨?_, ?_, rfl, ?_, ?_⟩
  · intro e
    cases e <;> rfl
  · intro e
    cases e <;> simp [mainHandler, errText]
  · intro paths
    rfl
  · intro s args ed tgt name ints s1 wtid s2 stid wt st hid hc ht
    intro hsh hn hread hw1 hw2 hlw hls hrt hlc hlt hall hd1 hd2
    unfold commit_status commitStatusTail
    simp only [hsh, hn, hread, hw1, hw2, hlw, hls, hrt, hlc, hlt, hall, hd1, hd2,
      Bool.false_eq_true, if_false, writeStatusLines]
    simp

/-- Store for the no-changes commit scenario: history reference and both
snapshot references all point at commit 10 (tree `tSeries2`). -/
def nc0 : Store :=
  { trees := [(100, []), (101, tSeries2), (102, tSeries3)],
    commits := [(1, ⟨100, [], "initial"⟩), (2, ⟨100, [1], "second"⟩),
                (3, ⟨100, [], "other root"⟩), (10, ⟨101, [2], "snapshot"⟩)],
    refs := [("HEAD", 2), ("refs/heads/git-series/x", 10),
             ("refs/git-series-internals/staged/x", 10),
             ("refs/git-series-internals/working/x", 10)],
    shead := some "refs/heads/git-series/x",
    nextOid := 200 }

/-- A series whose history tip (commit 20, tree `tSeries3`) differs from the
staged and working snapshots (tree `tSeries2`), so a commit is accepted. -/
def nc1 : Store :=
  { trees := [(100, []), (101, tSeries2), (102, tSeries3)],
    commits := [(1, ⟨100, [], "initial"⟩), (2, ⟨100, [1], "second"⟩),
                (3, ⟨100, [], "other root"⟩), (10, ⟨101, [2], "snapshot"⟩),
                (20, ⟨102, [3], "old history"⟩)],
    refs := [("HEAD", 2), ("refs/heads/git-series/x", 20),
             ("refs/git-series-internals/staged/x", 10),
             ("refs/git-series-internals/working/x", 10)],
    shead := some "refs/heads/git-series/x",
    nextOid := 200 }

/-- Witness for C8: the suppression facts at concrete errors, a concrete
checkout conflict, and a concrete no-changes commit invocation. -/
theorem c8_witness :
    (mainHandler (.error .notFound)).2 = 1 ∧
    ((mainHandler (.error .checkoutConflict)).1 = [] ↔
      (Error.checkoutConflict = .commitNoChanges ∨
        Error.checkoutConflict = .checkoutConflict)) ∧
    checkout_tree (.conflict ["file"]) =
      (["error: Your changes to the following files would be overwritten by checkout:"] ++
         ["file"].map (fun p => "        " ++ p) ++
         ["Please, commit your changes or stash them before you switch series."],
       .error .checkoutConflict) ∧
    (commit_status nc0 ⟨false, some "m", false⟩ false "").res = .error .commitNoChanges ∧
    "nothing to commit; series unchanged" ∈ (commit_status nc0 ⟨false, some "m", false⟩ false "").out := by
  refine ⟨c8_theorem.1 .notFound, c8_theorem.2.1 .checkoutConflict,
    c8_theorem.2.2.2.1 ["file"], ?_⟩
  exact c8_theorem.2.2.2.2 nc0 ⟨false, some "m", false⟩ "" "refs/heads/git-series/x" "x"
    ⟨tSeries2, tSeries2⟩ nc0 101 nc0 101 tSeries2 tSeries2 10 ⟨101, [2], "snapshot"⟩ tSeries2
    rfl rfl rfl rfl rfl rfl rfl rfl rfl rfl rfl rfl rfl

theorem tail_no_changes_res (s2 : Store) (args : CommitArgs) (ed sn tgt : String)
    (ints : Internals) (sp : Option (Oid × CommitObj)) (sht : Option ObjTree)
    (wtid stid : Oid) (wt st : ObjTree)
    (hd : diffTT sht (if args.all then wt else st) = []) :
    (commitStatusTail s2 args false ed sn tgt ints sp sht wtid stid wt st).res =
      .error .commitNoChanges := by
  unfold commitStatusTail
  cases hall : args.all with
  | true =>
    rw [hall] at hd
    simp at hd
    simp [hall, hd, writeStatusLines]
  | false =>
    rw [hall] at hd
    simp at hd
    simp [hall, hd, writeStatusLines]

theorem tail_series_missing (s2 : Store) (args : CommitArgs) (ed sn tgt : String)
    (ints : Internals) (sp : Option (Oid × CommitObj)) (sht : Option ObjTree)
    (wtid stid : Oid) (wt st : ObjTree) (a : String × String) (as : List (String × String))
    (hd : diffTT sht (if args.all then wt else st) = a :: as)
    (hser : tbGet (if args.all then wt else st) "series" = none) :
    commitStatusTail s2 args false ed sn tgt ints sp sht wtid stid wt st =
      ⟨s2, [], .error (.msg ("Cannot commit: initial commit must include \"series\"\n" ++
        "Use \"git series add series\" or \"git series commit -a\""))⟩ := by
  unfold commitStatusTail
  cases hall : args.all with
  | true =>
    rw [hall] at hd hser
    simp at hd hser
    simp [hall, hd, hser, writeStatusLines]
  | false =>
    rw [hall] at hd hser
    simp at hd hser
    simp [hall, hd, hser, writeStatusLines]

theorem tail_base_bad (s2 : Store) (args : CommitArgs) (ed sn tgt : String)
    (ints : Internals) (sp : Option (Oid × CommitObj)) (sht : Option ObjTree)
    (wtid stid : Oid) (wt st : ObjTree) (a : String × String) (as : List (String × String))
    (se be : TreeEntry) (bc sc : CommitObj)
    (hd : diffTT sht (if args.all then wt else st) = a :: as)
    (hser : tbGet (if args.all then wt else st) "series" = some se)
    (hbase : tbGet (if args.all then wt else st) "base" = some be)
    (hne : be.eid ≠ se.eid)
    (hdesc : descendantOf s2 se.eid be.eid = false)
    (hbc : s2.lookCommit be.eid = some bc)
    (hsc : s2.lookCommit se.eid = some sc) :
    commitStatusTail s2 args false ed sn tgt ints sp sht wtid stid wt st =
      ⟨s2, [], .error (.msg ("Cannot commit: base " ++ shortIdS be.eid ++
        " is not an ancestor of patch series " ++ shortIdS se.eid ++
        "\nbase   " ++ shortIdS be.eid ++ " " ++ firstLine bc.message ++
        "\nseries " ++ shortIdS se.eid ++ " " ++ firstLine sc.message))⟩ := by
  unfold commitStatusTail
  cases hall : args.all with
  | true =>
    rw [hall] at hd hser hbase
    simp at hd hser hbase
    simp [hall, hd, hser, hbase, hne, hdesc, writeStatusLines,
      commitSummarizeComponents, hbc, hsc]
  | false =>
    rw [hall] at hd hser hbase
    simp at hd hser hbase
    simp [hall, hd, hser, hbase, hne, hdesc, writeStatusLines,
      commitSummarizeComponents, hbc, hsc]

theorem tail_base_bad_res (s2 : Store) (args : CommitArgs) (ed sn tgt : String)
    (ints : Internals) (sp : Option (Oid × CommitObj)) (sht : Option ObjTree)
    (wtid stid : Oid) (wt st : ObjTree) (a : String × String) (as : List (String × String))
    (se be : TreeEntry)
    (hd : diffTT sht (if args.all then wt else st) = a :: as)
    (hser : tbGet (if args.all then wt else st) "series" = some se)
    (hbase : tbGet (if args.all then wt else st) "base" = some be)
    (hne : be.eid ≠ se.eid)
    (hdesc : descendantOf s2 se.eid be.eid = false) :
    ∃ e, (commitStatusTail s2 args false ed sn tgt ints sp sht wtid stid wt st).res =
      .error e := by
  unfold commitStatusTail
  cases hall : args.all with
  | true =>
    rw [hall] at hd hser hbase
    simp at hd hser hbase
    cases hb2 : commitSummarizeComponents s2 be.eid with
    | error e => exact ⟨e, by simp [hall, hd, hser, hbase, hne, hdesc, writeStatusLines, hb2]⟩
    | ok bp =>
      cases hs2 : commitSummarizeComponents s2 se.eid with
      | error e =>
        exact ⟨e, by simp [hall, hd, hser, hbase, hne, hdesc, writeStatusLines, hb2, hs2]⟩
      | ok sp2 =>
        exact ⟨.msg ("Cannot commit: base " ++ bp.1 ++
            " is not an ancestor of patch series " ++ sp2.1 ++
            "\nbase   " ++ bp.1 ++ " " ++ bp.2 ++
            "\nseries " ++ sp2.1 ++ " " ++ sp2.2),
          by simp [hall, hd, hser, hbase, hne, hdesc, writeStatusLines, hb2, hs2]⟩
  | false =>
    rw [hall] at hd hser hbase
    simp at hd hser hbase
    cases hb2 : commitSummarizeComponents s2 be.eid with
    | error e => exact ⟨e, by simp [hall, hd, hser, hbase, hne, hdesc, writeStatusLines, hb2]⟩
    | ok bp =>
      cases hs2 : commitSummarizeComponents s2 se.eid with
      | error e =>
        exact ⟨e, by simp [hall, hd, hser, hbase, hne, hdesc, writeStatusLines, hb2, hs2]⟩
      | ok sp2 =>
        exact ⟨.msg ("Cannot commit: base " ++ bp.1 ++
            " is not an ancestor of patch series " ++ sp2.1 ++
            "\nbase   " ++ bp.1 ++ " " ++ bp.2 ++
            "\nseries " ++ sp2.1 ++ " " ++ sp2.2),
          by simp [hall, hd, hser, hbase, hne, hdesc, writeStatusLines, hb2, hs2]⟩

theorem tail_validates (s2 : Store) (args : CommitArgs) (ed sn tgt : String)
    (ints : Internals) (sp : Option (Oid × CommitObj)) (sht : Option ObjTree)
    (wtid stid : Oid) (wt st : ObjTree)
    (hok : (commitStatusTail s2 args false ed sn tgt ints sp sht wtid stid wt st).res =
      .ok ()) :
    (tbGet (if args.all then wt else st) "series").isSome = true ∧
    (∀ be se, tbGet (if args.all then wt else st) "base" = some be →
      tbGet (if args.all then wt else st) "series" = some se →
      be.eid = se.eid ∨ descendantOf s2 se.eid be.eid = true) := by
  cases hd : diffTT sht (if args.all then wt else st) with
  | nil =>
    exfalso
    have h := tail_no_changes_res s2 args ed sn tgt ints sp sht wtid stid wt st hd
    rw [hok] at h
    cases h
  | cons a as =>
    cases hser : tbGet (if args.all then wt else st) "series" with
    | none =>
      exfalso
      have h := tail_series_missing s2 args ed sn tgt ints sp sht wtid stid wt st a as hd hser
      rw [h] at hok
      cases hok
    | some se =>
      refine ⟨by simp [hser], ?_⟩
      intro be se2 hbe hse2
      injection hse2 with hse3
      subst hse3
      by_cases h1 : be.eid = se.eid
      · exact Or.inl h1
      · right
        cases h2 : descendantOf s2 se.eid be.eid with
        | true => rfl
        | false =>
          exfalso
          obtain ⟨e, he⟩ :=
            tail_base_bad_res s2 args ed sn tgt ints sp sht wtid stid wt st a as se be
              hd hser hbe h1 h2
          rw [hok] at he
          cases he

theorem writeTree_pair_refs {s s1 : Store} {t : ObjTree} {tid : Oid}
    (h : s.writeTree t = (s1, tid)) : s1.refs = s.refs := by
  have e := writeTree_refs s t
  rw [h] at e
  exact e

theorem writeTree_pair_commits {s s1 : Store} {t : ObjTree} {tid : Oid}
    (h : s.writeTree t = (s1, tid)) : s1.commits = s.commits := by
  have e := writeTree_commits s t
  rw [h] at e
  exact e

/-- C2 — Every history commit accepted by the Commit Composer satisfies the
invariant: the chosen tree has a `series` slot, and a present `base` slot
equals the `series` commit or is a genuine ancestor of it.  A missing
`series` slot or a non-ancestor base makes the operation fail fatally (the
non-ancestor message identifying both commits by short id and summary)
before any commit object is created or any reference updated — only the two
snapshot tree objects have been finalized into the (garbage-collectable)
object pool. -/
theorem c2_theorem :
    (∀ (s : Store) (args : CommitArgs) (ed tgt name : String) (ints : Internals)
       (s1 : Store) (wtid : Oid) (s2 : Store) (stid : Oid) (wt st : ObjTree),
       s.shead = some tgt → sheadSeriesName tgt = .ok name →
       Internals.read s = .ok ints →
       s.writeTree ints.working = (s1, wtid) →
       s1.writeTree ints.staged = (s2, stid) →
       s2.lookTree wtid = some wt → s2.lookTree stid = some st →
       (commit_status s args false ed).res = .ok () →
       (tbGet (if args.all then wt else st) "series").isSome = true ∧
       (∀ be se, tbGet (if args.all then wt else st) "base" = some be →
         tbGet (if args.all then wt else st) "series" = some se →
         be.eid = se.eid ∨ descendantOf s2 se.eid be.eid = true)) ∧
    (∀ (s : Store) (args : CommitArgs) (ed tgt name : String) (ints : Internals)
       (s1 : Store) (wtid : Oid) (s2 : Store) (stid : Oid) (wt st : ObjTree)
       (a : String × String) (as : List (String × String)),
       s.shead = some tgt → sheadSeriesName tgt = .ok name →
       Internals.read s = .ok ints →
       s.writeTree ints.working = (s1, wtid) →
       s1.writeTree ints.staged = (s2, stid) →
       s2.lookTree wtid = some wt → s2.lookTree stid = some st →
       s2.refTarget tgt = none →
       diffTT none (if args.all then wt else st) = a :: as →
       tbGet (if args.all then wt else st) "series" = none →
       commit_status s args false ed =
         ⟨s2, [], .error (.msg ("Cannot commit: initial commit must include \"series\"\n" ++
           "Use \"git series add series\" or \"git series commit -a\""))⟩ ∧
       s2.refs = s.refs ∧ s2.commits = s.commits) ∧
    (∀ (s : Store) (args : CommitArgs) (ed tgt name : String) (ints : Internals)
       (s1 : Store) (wtid : Oid) (s2 : Store) (stid : Oid) (wt st : ObjTree)
       (a : String × String) (as : List (String × String)) (se be : TreeEntry)
       (bc sc : CommitObj),
       s.shead = some tgt → sheadSeriesName tgt = .ok name →
       Internals.read s = .ok ints →
       s.writeTree ints.working = (s1, wtid) →
       s1.writeTree ints.staged = (s2, stid) →
       s2.lookTree wtid = some wt → s2.lookTree stid = some st →
       s2.refTarget tgt = none →
       diffTT none (if args.all then wt else st) = a :: as →
       tbGet (if args.all then wt else st) "series" = some se →
       tbGet (if args.all then wt else st) "base" = some be →
       be.eid ≠ se.eid →
       descendantOf s2 se.eid be.eid = false →
       s2.lookCommit be.eid = some bc →
       s2.lookCommit se.eid = some sc →
       commit_status s args false ed =
         ⟨s2, [], .error (.msg ("Cannot commit: base " ++ shortIdS be.eid ++
           " is not an ancestor of patch series " ++ shortIdS se.eid ++
           "\nbase   " ++ shortIdS be.eid ++ " " ++ firstLine bc.message ++
           "\nseries " ++ shortIdS se.eid ++ " " ++ firstLine sc.message))⟩ ∧
       s2.refs = s.refs ∧ s2.commits = s.commits) := by
  refine ⟨?_, ?_, ?_⟩
  · intro s args ed tgt name ints s1 wtid s2 stid wt st
    intro hsh hn hread hw1 hw2 hlw hls hok
    unfold commit_status at hok
    simp only [hsh, hn, hread, hw1, hw2, hlw, hls] at hok
    cases hrt : s2.refTarget tgt with
    | none =>
      simp only [hrt] at hok
      exact tail_validates s2 args ed name tgt ints none none wtid stid wt st hok
    | some hid =>
      cases hlc : s2.lookCommit hid with
      | none =>
        simp only [hrt, hlc] at hok
        cases hok
      | some hcobj =>
        cases hlt : s2.lookTree hcobj.tree with
        | none =>
          simp only [hrt, hlc, hlt] at hok
          cases hok
        | some ht =>
          simp only [hrt, hlc, hlt] at hok
          exact tail_validates s2 args ed name tgt ints (some (hid, hcobj)) (some ht)
            wtid stid wt st hok
  · intro s args ed tgt name ints s1 wtid s2 stid wt st a as
    intro hsh hn hread hw1 hw2 hlw hls hrt hd hser
    refine ⟨?_, (writeTree_pair_refs hw2).trans (writeTree_pair_refs hw1),
      (writeTree_pair_commits hw2).trans (writeTree_pair_commits hw1)⟩
    unfold commit_status
    simp only [hsh, hn, hread, hw1, hw2, hlw, hls, hrt]
    exact tail_series_missing s2 args ed name tgt ints none none wtid stid wt st a as hd hser
  · intro s args ed tgt name ints s1 wtid s2 stid wt st a as se be bc sc
    intro hsh hn hread hw1 hw2 hlw hls hrt hd hser hbase hne hdesc hbc hsc
    refine ⟨?_, (writeTree_pair_refs hw2).trans (writeTree_pair_refs hw1),
      (writeTree_pair_commits hw2).trans (writeTree_pair_commits hw1)⟩
    unfold commit_status
    simp only [hsh, hn, hread, hw1, hw2, hlw, hls, hrt]
    exact tail_base_bad s2 args ed name tgt ints none none wtid stid wt st a as se be bc sc
      hd hser hbase hne hdesc hbc hsc

/-- Staged snapshot holding only a cover letter (no `series` slot). -/
def tCover : ObjTree := [("cover", ⟨7, gitFilemodeBlob⟩)]

/-- Store whose staged snapshot is missing the `series` slot. -/
def m0 : Store :=
  { trees := [(100, []), (101, tSeries2), (103, tCover)],
    commits := [(1, ⟨100, [], "initial"⟩), (2, ⟨100, [1], "second"⟩),
                (3, ⟨100, [], "other root"⟩), (10, ⟨101, [2], "snapshot"⟩),
                (13, ⟨103, [], "coversnap"⟩)],
    refs := [("HEAD", 2), ("refs/git-series-internals/staged/x", 13),
             ("refs/git-series-internals/working/x", 10)],
    shead := some "refs/heads/git-series/x",
    nextOid := 200 }

/-- Staged snapshot whose `base` (commit 3) is not an ancestor of `series`
(commit 2). -/
def tBase3 : ObjTree := [("base", te 3), ("series", te 2)]

/-- Store whose staged snapshot carries a non-ancestor base. -/
def b0 : Store :=
  { trees := [(100, []), (101, tSeries2), (104, tBase3)],
    commits := [(1, ⟨100, [], "initial"⟩), (2, ⟨100, [1], "second"⟩),
                (3, ⟨100, [], "other root"⟩), (10, ⟨101, [2], "snapshot"⟩),
                (14, ⟨104, [2, 3], "snap2"⟩)],
    refs := [("HEAD", 2), ("refs/git-series-internals/staged/x", 14),
             ("refs/git-series-internals/working/x", 10)],
    shead := some "refs/heads/git-series/x",
    nextOid := 200 }

/-- Witness for C2: an accepted initial commit on `w0` satisfies the
invariant; the store `m0` (no `series` slot) and the store `b0` (non-ancestor
base) both fail fatally with the exact messages, leaving references and
commits untouched. -/
theorem c2_witness :
    ((tbGet tSeries2 "series").isSome = true ∧
      (∀ be se, tbGet tSeries2 "base" = some be → tbGet tSeries2 "series" = some se →
        be.eid = se.eid ∨ descendantOf w0 se.eid be.eid = true)) ∧
    (commit_status m0 ⟨false, some "m", false⟩ false "" =
      ⟨m0, [], .error (.msg ("Cannot commit: initial commit must include \"series\"\n" ++
        "Use \"git series add series\" or \"git series commit -a\""))⟩ ∧
      m0.refs = m0.refs ∧ m0.commits = m0.commits) ∧
    (commit_status b0 ⟨false, some "m", false⟩ false "" =
      ⟨b0, [], .error (.msg ("Cannot commit: base " ++ shortIdS 3 ++
        " is not an ancestor of patch series " ++ shortIdS 2 ++
        "\nbase   " ++ shortIdS 3 ++ " " ++ firstLine "other root" ++
        "\nseries " ++ shortIdS 2 ++ " " ++ firstLine "second"))⟩ ∧
      b0.refs = b0.refs ∧ b0.commits = b0.commits) := by
  refine ⟨?_, ?_, ?_⟩
  · exact c2_theorem.1 w0 ⟨false, some "m", false⟩ "" "refs/heads/git-series/x" "x"
      ⟨tSeries2, tSeries2⟩ w0 101 w0 101 tSeries2 tSeries2
      rfl rfl rfl rfl rfl rfl rfl rfl
  · exact c2_theorem.2.1 m0 ⟨false, some "m", false⟩ "" "refs/heads/git-series/x" "x"
      ⟨tCover, tSeries2⟩ m0 101 m0 103 tSeries2 tCover ("Added", "cover") []
      rfl rfl rfl rfl rfl rfl rfl rfl rfl rfl
  · exact c2_theorem.2.2 b0 ⟨false, some "m", false⟩ "" "refs/heads/git-series/x" "x"
      ⟨tBase3, tSeries2⟩ b0 101 b0 104 tSeries2 tBase3 ("Added", "base")
      [("Added", "series")] (te 2) (te 3) ⟨100, [], "other root"⟩ ⟨100, [1], "second"⟩
      rfl rfl rfl rfl rfl rfl rfl rfl rfl rfl rfl (by decide) rfl rfl rfl

theorem parentsFromIds_sorted {s : Store} {l : List Oid} {pids : List Oid}
    (h : parentsFromIds s l = .ok pids) : pids = oidSortDedup l := by
  unfold parentsFromIds at h
  by_cases hall : (oidSortDedup l).all (fun p => (s.lookCommit p).isSome) = true
  · simp [hall] at h
    exact h.symm
  · simp [hall] at h

/-- Staged snapshot whose `base` and `series` slots hold the same commit (a
configuration the validator explicitly accepts: base equal to series). -/
def tBaseSeries : ObjTree := [("base", te 2), ("series", te 2)]

/-- Store whose staged snapshot has base = series = commit 2. -/
def cb0 : Store :=
  { trees := [(100, []), (101, tSeries2), (105, tBaseSeries)],
    commits := [(1, ⟨100, [], "initial"⟩), (2, ⟨100, [1], "second"⟩),
                (3, ⟨100, [], "other root"⟩), (10, ⟨101, [2], "snapshot"⟩),
                (15, ⟨105, [2], "snap3"⟩)],
    refs := [("HEAD", 2), ("refs/git-series-internals/staged/x", 15),
             ("refs/git-series-internals/working/x", 10)],
    shead := some "refs/heads/git-series/x",
    nextOid := 200 }

/-- Counterexample for C5 as stated.  On `cb0` the staged tree has
base = series = commit 2; the commit operation is accepted (base equal to
series passes validation), and the new history commit (digest 200) has the
base slot's commit 2 as a direct parent — contributed by the `series` entry.
So "the base commit is never a direct parent of the history chain" is false;
only the weaker statement holds: the `base` slot itself is excluded from the
parent computation. -/
theorem c5_counterexample :
    (commit_status cb0 ⟨false, some "m", false⟩ false "").res = .ok () ∧
    tbGet tBaseSeries "base" = some ⟨2, gitFilemodeCommit⟩ ∧
    (commit_status cb0 ⟨false, some "m", false⟩ false "").store.refTarget
      "refs/heads/git-series/x" = some 200 ∧
    (commit_status cb0 ⟨false, some "m", false⟩ false "").store.lookCommit 200 =
      some ⟨105, [2], "m"⟩ ∧
    (match (commit_status cb0 ⟨false, some "m", false⟩ false "").store.lookCommit 200 with
     | some c => c.parents.contains 2
     | none => false) = true :=
  ⟨rfl, rfl, rfl, rfl, rfl⟩

theorem mem_of_memB {l : List Oid} {x : Oid} (h : memB l x = true) : x ∈ l := by
  simpa [memB] using h

/-- Per-position topological soundness of an emission order: every element's
in-range parents already occur among the elements seen before it. -/
def seenOK (s : Store) (range : List Oid) : List Oid → List Oid → Prop
  | _, [] => True
  | seen, c :: rest =>
    (∀ p, p ∈ parentIdsOf s c → p ∈ range → p ∈ seen) ∧
      seenOK s range (seen ++ [c]) rest

theorem seenOK_mono (s : Store) (range : List Oid) (l : List Oid) :
    ∀ seen seen2 : List Oid, (∀ x, x ∈ seen → x ∈ seen2) →
      seenOK s range seen l → seenOK s range seen2 l := by
  induction l with
  | nil => intro seen seen2 hsub h; trivial
  | cons c rest ih =>
    intro seen seen2 hsub h
    obtain ⟨h1, h2⟩ := h
    refine ⟨fun p hp hr => hsub p (h1 p hp hr), ?_⟩
    refine ih (seen ++ [c]) (seen2 ++ [c]) ?_ h2
    intro x hx
    rcases List.mem_append.mp hx with hx | hx
    · exact List.mem_append.mpr (Or.inl (hsub x hx))
    · exact List.mem_append.mpr (Or.inr hx)

theorem seenOK_append (s : Store) (range : List Oid) (xs : List Oid) :
    ∀ (seen ys : List Oid), seenOK s range seen xs → seenOK s range (seen ++ xs) ys →
      seenOK s range seen (xs ++ ys) := by
  induction xs with
  | nil =>
    intro seen ys h1 h2
    simpa using h2
  | cons x xs ih =>
    intro seen ys h1 h2
    obtain ⟨ha, hb⟩ := h1
    refine ⟨ha, ?_⟩
    apply ih (seen ++ [x]) ys hb
    have he : (seen ++ [x]) ++ xs = seen ++ x :: xs := by simp
    rw [he]
    exact h2

theorem seenOK_of_parents_done (s : Store) (range done : List Oid) :
    ∀ (batch seen : List Oid),
      (∀ c, c ∈ batch → ∀ p, p ∈ parentIdsOf s c → p ∈ range → p ∈ done) →
      (∀ x, x ∈ done → x ∈ seen) →
      seenOK s range seen batch := by
  intro batch
  induction batch with
  | nil => intro seen h1 h2; trivial
  | cons c rest ih =>
    intro seen h1 h2
    refine ⟨fun p hp hr => h2 p (h1 c (by simp) p hp hr), ?_⟩
    apply ih (seen ++ [c])
    · intro c2 hc2 p hp hr
      exact h1 c2 (by simp [hc2]) p hp hr
    · intro x hx
      exact List.mem_append.mpr (Or.inl (h2 x hx))

theorem kahnIter_seenOK (s : Store) (range : List Oid) :
    ∀ n : Nat, seenOK s range [] (kahnIter s range n) := by
  intro n
  induction n with
  | zero => trivial
  | succ n ih =>
    show seenOK s range [] (kahnRound s range (kahnIter s range n))
    unfold kahnRound
    apply seenOK_append s range (kahnIter s range n) [] _ ih
    apply seenOK_of_parents_done s range (kahnIter s range n)
    · intro c hc p hp hr
      have hready := List.of_mem_filter hc
      unfold kahnReady at hready
      rcases Bool.and_eq_true_iff.mp hready with ⟨h1, h2⟩
      have h3 := List.all_eq_true.mp h2 p hp
      rcases Bool.or_eq_true_iff.mp h3 with h4 | h4
      · exfalso
        rw [memB_true_of_mem hr] at h4
        cases h4
      · exact mem_of_memB h4
    · intro x hx
      simpa using hx

theorem seenOK_split (s : Store) (range : List Oid) :
    ∀ (l1 : List Oid) (seen : List Oid) (c : Oid) (l2 : List Oid),
      seenOK s range seen (l1 ++ c :: l2) →
      ∀ p, p ∈ parentIdsOf s c → p ∈ range → p ∈ seen ++ l1 := by
  intro l1
  induction l1 with
  | nil =>
    intro seen c l2 h p hp hr
    simpa using h.1 p hp hr
  | cons x l1 ih =>
    intro seen c l2 h p hp hr
    have h2 := h.2
    have h3 := ih (seen ++ [x]) c l2 h2 p hp hr
    simpa using h3

theorem collectNonMerge_merge {s : Store} {c : Oid} {co : CommitObj} (l2 : List Oid)
    (hcc : s.lookCommit c = some co) (hm : co.parents.length > 1) :
    ∀ l1 : List Oid,
      (∀ x, x ∈ l1 → ∃ cox, s.lookCommit x = some cox ∧ cox.parents.length ≤ 1) →
      collectNonMerge s (l1 ++ c :: l2) =
        .error (.msg ("Error: cannot rebase merge commit:\n" ++ shortIdS c ++ " " ++
          firstLine co.message)) := by
  intro l1
  induction l1 with
  | nil =>
    intro h
    unfold collectNonMerge
    simp [hcc, hm]
  | cons x l1 ih =>
    intro h
    obtain ⟨cox, hx, hlen⟩ := h x (by simp)
    have hnm : ¬ cox.parents.length > 1 := by omega
    show collectNonMerge s (x :: (l1 ++ c :: l2)) = _
    unfold collectNonMerge
    simp [hx, hnm, ih (fun y hy => h y (by simp [hy])), Except.map]

/-- C7 — The rebase plan builder: (1) the revision walk emits the base..series
range in topological order with parents before children; (2) when the range
holds exactly one non-merge commit and no explicit onto target is given, the
generated plan is exactly one `pick` line, the blank line and range comment,
and the trailing comment block — no `exec` line; (3) a merge commit in the
range aborts the operation with the store untouched. -/
theorem c7_theorem :
    (∀ (s : Store) (series base : Oid) (l1 : List Oid) (c : Oid) (l2 : List Oid)
       (p : Oid),
       topoWalk s series base = l1 ++ c :: l2 →
       p ∈ parentIdsOf s c → p ∈ rangeList s series base → p ∈ l1) ∧
    (∀ (s : Store) (args : RebaseArgs) (env : RebaseEnv) (ints : Internals)
       (se be : TreeEntry) (scobj bcobj co : CommitObj) (c : Oid),
       env.repoState = .clean → env.treeToIndexClean = true →
       env.indexToWorkdirClean = true → env.checkout = .success [] →
       env.sequencerOk = true →
       args.interactive = false → args.onto = none →
       Internals.read s = .ok ints →
       tbGet ints.working "series" = some se →
       tbGet ints.working "base" = some be →
       se.eid ≠ be.eid →
       descendantOf s se.eid be.eid = true →
       s.lookCommit se.eid = some scobj →
       s.lookCommit be.eid = some bcobj →
       topoWalk s se.eid be.eid = [c] →
       s.lookCommit c = some co →
       co.parents.length ≤ 1 →
       rebaseOp s args env =
         ⟨s.refSet "HEAD" be.eid, [""],
          .ok (["pick " ++ shortIdS c ++ " " ++ firstLine co.message] ++
            ["", "# Rebase " ++ shortIdS be.eid ++ ".." ++ shortIdS se.eid ++
              " onto " ++ shortIdS be.eid] ++ rebaseCommentLines)⟩) ∧
    (∀ (s : Store) (args : RebaseArgs) (env : RebaseEnv) (ints : Internals)
       (se be : TreeEntry) (scobj co : CommitObj) (l1 : List Oid) (c : Oid)
       (l2 : List Oid),
       env.repoState = .clean → env.treeToIndexClean = true →
       env.indexToWorkdirClean = true →
       Internals.read s = .ok ints →
       tbGet ints.working "series" = some se →
       tbGet ints.working "base" = some be →
       se.eid ≠ be.eid →
       descendantOf s se.eid be.eid = true →
       s.lookCommit se.eid = some scobj →
       topoWalk s se.eid be.eid = l1 ++ c :: l2 →
       (∀ x, x ∈ l1 → ∃ cox, s.lookCommit x = some cox ∧ cox.parents.length ≤ 1) →
       s.lookCommit c = some co →
       co.parents.length > 1 →
       rebaseOp s args env =
         ⟨s, [], .error (.msg ("Error: cannot rebase merge commit:\n" ++ shortIdS c ++
           " " ++ firstLine co.message))⟩) := by
  refine ⟨?_, ?_, ?_⟩
  · intro s series base l1 c l2 p hwalk hp hr
    have hOK := kahnIter_seenOK s (rangeList s series base) (rangeList s series base).length
    unfold topoWalk at hwalk
    rw [hwalk] at hOK
    have h := seenOK_split s (rangeList s series base) l1 [] c l2 hOK p hp hr
    simpa using h
  · intro s args env ints se be scobj bcobj co c
    intro hst hcl1 hcl2 hco hseq hint honto hread hser hbase hne hdesc hsc hbc hwalk hcc hnm
    have hnm2 : ¬ co.parents.length > 1 := by omega
    unfold rebaseOp
    rw [hst]
    simp only [hread, hser, hbase, hne, hdesc, hcl1, hcl2, hsc, hwalk, honto, hint, hco,
      hseq, hbc, hcc, hnm2, collectNonMerge, commitSummarizeComponents, checkout_tree,
      Except.map]
    simp [hne, hnm2, hbc, hsc, Except.map, checkout_tree]
  · intro s args env ints se be scobj co l1 c l2
    intro hst hcl1 hcl2 hread hser hbase hne hdesc hsc hwalk hl1 hcc hm
    have hcol := collectNonMerge_merge l2 hcc hm l1 hl1
    unfold rebaseOp
    rw [hst]
    simp only [hread, hser, hbase, hne, hdesc, hcl1, hcl2, hsc, hwalk, hcol]
    simp [hne]

/-- Working snapshot with base = commit 1, series = commit 2. -/
def tB1S2 : ObjTree := [("base", te 1), ("series", te 2)]

/-- Store for the single-commit rebase scenario (range base..series = {2}). -/
def rb0 : Store :=
  { trees := [(100, []), (101, tSeries2), (106, tB1S2)],
    commits := [(1, ⟨100, [], "initial"⟩), (2, ⟨100, [1], "second"⟩),
                (3, ⟨100, [], "other root"⟩), (16, ⟨106, [1, 2], "rbsnap"⟩)],
    refs := [("HEAD", 2), ("refs/git-series-internals/staged/x", 16),
             ("refs/git-series-internals/working/x", 16)],
    shead := some "refs/heads/git-series/x",
    nextOid := 200 }

/-- Clean external environment for rebase scenarios. -/
def rbEnv : RebaseEnv :=
  ⟨.clean, true, true, none, .success [], true⟩

/-- Store with a two-commit chain 1 ← 2 ← 4 (range base..series = {2, 4}). -/
def rb1 : Store :=
  { trees := [(100, [])],
    commits := [(1, ⟨100, [], "initial"⟩), (2, ⟨100, [1], "second"⟩),
                (3, ⟨100, [], "other root"⟩), (4, ⟨100, [2], "third"⟩)],
    refs := [],
    shead := none,
    nextOid := 200 }

/-- Working snapshot with base = commit 1, series = merge commit 5. -/
def tB1S5 : ObjTree := [("base", te 1), ("series", te 5)]

/-- Store whose base..series range contains the merge commit 5. -/
def rb2 : Store :=
  { trees := [(100, []), (101, tSeries2), (108, tB1S5)],
    commits := [(1, ⟨100, [], "initial"⟩), (2, ⟨100, [1], "second"⟩),
                (3, ⟨100, [], "other root"⟩), (5, ⟨100, [2, 3], "merge"⟩),
                (18, ⟨108, [1, 5], "rbsnap3"⟩)],
    refs := [("HEAD", 5), ("refs/git-series-internals/staged/x", 18),
             ("refs/git-series-internals/working/x", 18)],
    shead := some "refs/heads/git-series/x",
    nextOid := 200 }

/-- Witness for C7: topological order on the concrete two-commit range of
`rb1`; the exact single-pick plan on `rb0`; the merge abort on `rb2`. -/
theorem c7_witness :
    (2 ∈ ([2] : List Oid)) ∧
    rebaseOp rb0 ⟨false, none⟩ rbEnv =
      ⟨rb0.refSet "HEAD" 1, [""],
       .ok (["pick " ++ shortIdS 2 ++ " " ++ firstLine "second"] ++
         ["", "# Rebase " ++ shortIdS 1 ++ ".." ++ shortIdS 2 ++ " onto " ++ shortIdS 1] ++
         rebaseCommentLines)⟩ ∧
    rebaseOp rb2 ⟨false, none⟩ rbEnv =
      ⟨rb2, [], .error (.msg ("Error: cannot rebase merge commit:\n" ++ shortIdS 5 ++
        " " ++ firstLine "merge"))⟩ := by
  refine ⟨?_, ?_, ?_⟩
  · exact c7_theorem.1 rb1 4 1 [2] 4 [] 2 rfl (by decide) (by decide)
  · exact c7_theorem.2.1 rb0 ⟨false, none⟩ rbEnv ⟨tB1S2, tB1S2⟩ (te 2) (te 1)
      ⟨100, [1], "second"⟩ ⟨100, [], "initial"⟩ ⟨100, [1], "second"⟩ 2
      rfl rfl rfl rfl rfl rfl rfl rfl rfl rfl (by decide) rfl rfl rfl rfl rfl (by decide)
  · exact c7_theorem.2.2 rb2 ⟨false, none⟩ rbEnv ⟨tB1S5, tB1S5⟩ (te 5) (te 1)
      ⟨100, [2, 3], "merge"⟩ ⟨100, [2, 3], "merge"⟩ [2, 3] 5 []
      rfl rfl rfl rfl rfl rfl (by decide) rfl rfl rfl
      (by
        intro x hx
        simp at hx
        rcases hx with rfl | rfl
        · exact ⟨⟨100, [1], "second"⟩, rfl, by decide⟩
        · exact ⟨⟨100, [], "other root"⟩, rfl, by decide⟩)
      rfl (by decide)

theorem write_commits_mono {s s' : Store} {ints : Internals}
    (hwf : s.wfB = true) (hw : Internals.write s ints = (s', .ok ())) :
    ∀ id c, s.lookCommit id = some c → s'.lookCommit id = some c := by
  unfold Internals.write at hw
  cases hsh : s.shead with
  | none =>
    rw [hsh] at hw
    cases hw
  | some tgt =>
    cases hn : sheadSeriesName tgt with
    | error e => simp only [hsh, hn] at hw; cases hw
    | ok name =>
      simp only [hsh, hn] at hw
      cases hA : maybeCommit s (stagedRefPre ++ name) ints.staged with
      | mk sA rA =>
      cases rA with
      | error e =>
        simp only [hA] at hw
        cases hw
      | ok u =>
        simp only [hA] at hw
        obtain ⟨u⟩ := u
        have postA := maybeCommit_post hwf hA
        have postW := maybeCommit_post postA.wfp hw
        intro id c hc
        exact postW.commits_mono _ _ (postA.commits_mono _ _ hc)

theorem tail_commit_ok (s2 : Store) (args : CommitArgs) (ed sn tgt : String)
    (ints : Internals) (sp : Option (Oid × CommitObj)) (sht : Option ObjTree)
    (wtid stid : Oid) (wt st : ObjTree) (a : String × String)
    (as : List (String × String)) (se : TreeEntry) (pids : List Oid) (s5 : Store)
    (hm : msgOf args ed ≠ "")
    (hd : diffTT sht (if args.all = true then wt else st) = a :: as)
    (hser : tbGet (if args.all = true then wt else st) "series" = some se)
    (hbval : match tbGet (if args.all = true then wt else st) "base" with
             | none => True
             | some be => be.eid = se.eid ∨ descendantOf s2 se.eid be.eid = true)
    (hpids : parentsFromIds s2
      (((if args.all = true then wt else st).filter
        (fun p => p.2.isCommit && p.1 ≠ "base")).map (fun p => p.2.eid)) = .ok pids)
    (hfin : (if args.all = true then
               Internals.write ((s2.commitCreate wtid
                   ((match sp with | some pc => [pc.1] | none => []) ++ pids)
                   (msgOf args ed)).1.refSet tgt s2.nextOid)
                 { ints with staged := wt }
             else ((s2.commitCreate stid
                   ((match sp with | some pc => [pc.1] | none => []) ++ pids)
                   (msgOf args ed)).1.refSet tgt s2.nextOid, Except.ok ())) =
      (s5, .ok ())) :
    commitStatusTail s2 args false ed sn tgt ints sp sht wtid stid wt st =
      ⟨s5, ["[" ++ sn ++ " " ++ shortIdS s2.nextOid ++ "] " ++
        firstLine (msgOf args ed)], .ok ()⟩ := by
  unfold commitStatusTail
  simp only [ne_eq, decide_not] at hpids
  cases hall : args.all with
  | true =>
    rw [hall] at hd hser hbval hpids hfin
    simp only [if_true] at hd hser hbval hpids hfin
    simp [Store.commitCreate, Store.refSet] at hfin
    cases hbase : tbGet wt "base" with
    | none =>
      simp [hall, hd, hser, hbase, hm, hpids, hfin, writeStatusLines,
        Store.commitCreate, Store.refSet]
    | some be =>
      simp only [hbase] at hbval
      have hprop : ¬(¬be.eid = se.eid ∧ descendantOf s2 se.eid be.eid = false) := by
        rcases hbval with h | h
        · intro hc
          exact hc.1 h
        · intro hc
          rw [h] at hc
          exact absurd hc.2 (by simp)
      simp [hall, hd, hser, hbase, hprop, hm, hpids, hfin, writeStatusLines,
        Store.commitCreate, Store.refSet]
  | false =>
    rw [hall] at hd hser hbval hpids hfin
    simp only [Bool.false_eq_true, if_false] at hd hser hbval hpids hfin
    simp [Store.commitCreate, Store.refSet] at hfin
    cases hbase : tbGet st "base" with
    | none =>
      simp [hall, hd, hser, hbase, hm, hpids, hfin, writeStatusLines,
        Store.commitCreate, Store.refSet]
    | some be =>
      simp only [hbase] at hbval
      have hprop : ¬(¬be.eid = se.eid ∧ descendantOf s2 se.eid be.eid = false) := by
        rcases hbval with h | h
        · intro hc
          exact hc.1 h
        · intro hc
          rw [h] at hc
          exact absurd hc.2 (by simp)
      simp [hall, hd, hser, hbase, hprop, hm, hpids, hfin, writeStatusLines,
        Store.commitCreate, Store.refSet]

/-- C5 (amended) — For every accepted commit operation — in staged mode or
all-changes (-a) mode, with the message supplied inline or collected through
the editor — the new history commit's parent list is the previous history tip
(when one exists) followed by every commit-kind entry of the chosen tree
except the entry named `base` (sorted, de-duplicated).  The `base` slot
itself therefore never contributes a parent; note that the base commit can
nevertheless end up a direct parent when another commit-kind entry (such as
`series`, when base equals series) holds the same commit — see the
counterexample. -/
theorem c5_theorem :
    (∀ (s : Store) (args : CommitArgs) (ed tgt name : String) (ints : Internals)
       (s1 : Store) (wtid : Oid) (s2 : Store) (stid : Oid) (wt st : ObjTree)
       (hid : Oid) (hcobj : CommitObj) (ht : ObjTree) (a : String × String)
       (as : List (String × String)) (se : TreeEntry) (pids : List Oid) (s5 : Store),
       s.wfB = true →
       s.shead = some tgt → sheadSeriesName tgt = .ok name →
       Internals.read s = .ok ints →
       s.writeTree ints.working = (s1, wtid) →
       s1.writeTree ints.staged = (s2, stid) →
       s2.lookTree wtid = some wt → s2.lookTree stid = some st →
       s2.refTarget tgt = some hid →
       s2.lookCommit hid = some hcobj →
       s2.lookTree hcobj.tree = some ht →
       msgOf args ed ≠ "" →
       diffTT (some ht) (if args.all = true then wt else st) = a :: as →
       tbGet (if args.all = true then wt else st) "series" = some se →
       (match tbGet (if args.all = true then wt else st) "base" with
        | none => True
        | some be => be.eid = se.eid ∨ descendantOf s2 se.eid be.eid = true) →
       parentsFromIds s2
         (((if args.all = true then wt else st).filter
           (fun p => p.2.isCommit && p.1 ≠ "base")).map (fun p => p.2.eid)) = .ok pids →
       (if args.all = true then
          Internals.write ((s2.commitCreate wtid ([hid] ++ pids)
              (msgOf args ed)).1.refSet tgt s2.nextOid) { ints with staged := wt }
        else ((s2.commitCreate stid ([hid] ++ pids)
              (msgOf args ed)).1.refSet tgt s2.nextOid, Except.ok ())) = (s5, .ok ()) →
       commit_status s args false ed =
         ⟨s5, ["[" ++ name ++ " " ++ shortIdS s2.nextOid ++ "] " ++
           firstLine (msgOf args ed)], .ok ()⟩ ∧
       s5.lookCommit s2.nextOid =
         some ⟨(if args.all = true then wtid else stid), [hid] ++ pids, msgOf args ed⟩ ∧
       pids = oidSortDedup
         (((if args.all = true then wt else st).filter
           (fun p => p.2.isCommit && p.1 ≠ "base")).map (fun p => p.2.eid))) ∧
    (∀ (s : Store) (args : CommitArgs) (ed tgt name : String) (ints : Internals)
       (s1 : Store) (wtid : Oid) (s2 : Store) (stid : Oid) (wt st : ObjTree)
       (a : String × String) (as : List (String × String)) (se : TreeEntry)
       (pids : List Oid) (s5 : Store),
       s.wfB = true →
       s.shead = some tgt → sheadSeriesName tgt = .ok name →
       Internals.read s = .ok ints →
       s.writeTree ints.working = (s1, wtid) →
       s1.writeTree ints.staged = (s2, stid) →
       s2.lookTree wtid = some wt → s2.lookTree stid = some st →
       s2.refTarget tgt = none →
       msgOf args ed ≠ "" →
       diffTT none (if args.all = true then wt else st) = a :: as →
       tbGet (if args.all = true then wt else st) "series" = some se →
       (match tbGet (if args.all = true then wt else st) "base" with
        | none => True
        | some be => be.eid = se.eid ∨ descendantOf s2 se.eid be.eid = true) →
       parentsFromIds s2
         (((if args.all = true then wt else st).filter
           (fun p => p.2.isCommit && p.1 ≠ "base")).map (fun p => p.2.eid)) = .ok pids →
       (if args.all = true then
          Internals.write ((s2.commitCreate wtid pids
              (msgOf args ed)).1.refSet tgt s2.nextOid) { ints with staged := wt }
        else ((s2.commitCreate stid pids
              (msgOf args ed)).1.refSet tgt s2.nextOid, Except.ok ())) = (s5, .ok ()) →
       commit_status s args false ed =
         ⟨s5, ["[" ++ name ++ " " ++ shortIdS s2.nextOid ++ "] " ++
           firstLine (msgOf args ed)], .ok ()⟩ ∧
       s5.lookCommit s2.nextOid =
         some ⟨(if args.all = true then wtid else stid), pids, msgOf args ed⟩ ∧
       pids = oidSortDedup
         (((if args.all = true then wt else st).filter
           (fun p => p.2.isCommit && p.1 ≠ "base")).map (fun p => p.2.eid))) := by
  constructor
  · intro s args ed tgt name ints s1 wtid s2 stid wt st hid hcobj ht a as se pids s5
    intro hwf hsh hn hread hw1 hw2 hlw hls hrt hlc hlt hm hd hser hbval hpids hfin
    have hwf1 : s1.wfB = true := by
      have h := wfB_writeTree hwf ints.working
      rw [hw1] at h
      exact h
    have hwf2 : s2.wfB = true := by
      have h := wfB_writeTree hwf1 ints.staged
      rw [hw2] at h
      exact h
    refine ⟨?_, ?_, parentsFromIds_sorted hpids⟩
    · unfold commit_status
      simp only [hsh, hn, hread, hw1, hw2, hlw, hls, hrt, hlc, hlt]
      exact tail_commit_ok s2 args ed name tgt ints (some (hid, hcobj)) (some ht)
        wtid stid wt st a as se pids s5 hm hd hser hbval hpids hfin
    · cases hall : args.all with
      | true =>
        rw [hall] at hfin
        simp only [reduceIte] at hfin ⊢
        have hbase4 : ((s2.commitCreate wtid ([hid] ++ pids)
            (msgOf args ed)).1.refSet tgt s2.nextOid).lookCommit s2.nextOid =
            some ⟨wtid, [hid] ++ pids, msgOf args ed⟩ := by
          rw [refSet_lookCommit]
          exact commitCreate_lookup_new s2 wtid ([hid] ++ pids) (msgOf args ed)
        have hwf4 : ((s2.commitCreate wtid ([hid] ++ pids)
            (msgOf args ed)).1.refSet tgt s2.nextOid).wfB = true :=
          wfB_refSet (wfB_commitCreate hwf2 wtid ([hid] ++ pids) (msgOf args ed)) tgt
            s2.nextOid
        exact write_commits_mono hwf4 hfin s2.nextOid _ hbase4
      | false =>
        rw [hall] at hfin
        simp only [Bool.false_eq_true, if_false] at hfin ⊢
        simp only [Prod.mk.injEq, and_true] at hfin
        subst hfin
        rw [refSet_lookCommit]
        exact commitCreate_lookup_new s2 stid ([hid] ++ pids) (msgOf args ed)
  · intro s args ed tgt name ints s1 wtid s2 stid wt st a as se pids s5
    intro hwf hsh hn hread hw1 hw2 hlw hls hrt hm hd hser hbval hpids hfin
    have hwf1 : s1.wfB = true := by
      have h := wfB_writeTree hwf ints.working
      rw [hw1] at h
      exact h
    have hwf2 : s2.wfB = true := by
      have h := wfB_writeTree hwf1 ints.staged
      rw [hw2] at h
      exact h
    refine ⟨?_, ?_, parentsFromIds_sorted hpids⟩
    · unfold commit_status
      simp only [hsh, hn, hread, hw1, hw2, hlw, hls, hrt]
      exact tail_commit_ok s2 args ed name tgt ints none none
        wtid stid wt st a as se pids s5 hm hd hser hbval hpids hfin
    · cases hall : args.all with
      | true =>
        rw [hall] at hfin
        simp only [reduceIte] at hfin ⊢
        have hbase4 : ((s2.commitCreate wtid pids
            (msgOf args ed)).1.refSet tgt s2.nextOid).lookCommit s2.nextOid =
            some ⟨wtid, pids, msgOf args ed⟩ := by
          rw [refSet_lookCommit]
          exact commitCreate_lookup_new s2 wtid pids (msgOf args ed)
        have hwf4 : ((s2.commitCreate wtid pids
            (msgOf args ed)).1.refSet tgt s2.nextOid).wfB = true :=
          wfB_refSet (wfB_commitCreate hwf2 wtid pids (msgOf args ed)) tgt s2.nextOid
        exact write_commits_mono hwf4 hfin s2.nextOid _ hbase4
      | false =>
        rw [hall] at hfin
        simp only [Bool.false_eq_true, if_false] at hfin ⊢
        simp only [Prod.mk.injEq, and_true] at hfin
        subst hfin
        rw [refSet_lookCommit]
        exact commitCreate_lookup_new s2 stid pids (msgOf args ed)

/-- Witness for C5: three accepted commits, exercising every mode.  On `nc1`
(existing tip, commit 20) a staged-tree commit with an inline message gets
parents [20, 2]: the tip followed by the non-base commit entries.  On `w0`
(no tip yet) an initial staged-tree commit with an inline message, and an
initial `-a` (working-tree) commit whose message comes from the editor file,
both get parents [2]. -/
theorem c5_witness :
    (commit_status nc1 ⟨false, some "m", false⟩ false "" =
       ⟨(nc1.commitCreate 101 [20, 2] "m").1.refSet "refs/heads/git-series/x" 200,
        ["[x 200] m"], .ok ()⟩ ∧
     ((nc1.commitCreate 101 [20, 2] "m").1.refSet "refs/heads/git-series/x"
        200).lookCommit 200 = some ⟨101, [20, 2], "m"⟩ ∧
     [2] = oidSortDedup [2]) ∧
    (commit_status w0 ⟨false, some "m", false⟩ false "" =
       ⟨(w0.commitCreate 101 [2] "m").1.refSet "refs/heads/git-series/x" 200,
        ["[x 200] m"], .ok ()⟩ ∧
     ((w0.commitCreate 101 [2] "m").1.refSet "refs/heads/git-series/x"
        200).lookCommit 200 = some ⟨101, [2], "m"⟩ ∧
     [2] = oidSortDedup [2]) ∧
    (commit_status w0 ⟨true, none, false⟩ false "my commit message\n# comment\n" =
       ⟨(w0.commitCreate 101 [2] "my commit message\n").1.refSet
          "refs/heads/git-series/x" 200,
        ["[x 200] my commit message"], .ok ()⟩ ∧
     ((w0.commitCreate 101 [2] "my commit message\n").1.refSet
        "refs/heads/git-series/x" 200).lookCommit 200 =
       some ⟨101, [2], "my commit message\n"⟩ ∧
     [2] = oidSortDedup [2]) := by
  refine ⟨?_, ?_, ?_⟩
  · exact c5_theorem.1 nc1 ⟨false, some "m", false⟩ "" "refs/heads/git-series/x" "x"
      ⟨tSeries2, tSeries2⟩ nc1 101 nc1 101 tSeries2 tSeries2 20 ⟨102, [3], "old history"⟩
      tSeries3 ("Modified", "series") [] (te 2) [2]
      ((nc1.commitCreate 101 [20, 2] "m").1.refSet "refs/heads/git-series/x" 200)
      rfl rfl rfl rfl rfl rfl rfl rfl rfl rfl rfl (by decide) rfl rfl trivial rfl rfl
  · exact c5_theorem.2 w0 ⟨false, some "m", false⟩ "" "refs/heads/git-series/x" "x"
      ⟨tSeries2, tSeries2⟩ w0 101 w0 101 tSeries2 tSeries2
      ("Added", "series") [] (te 2) [2]
      ((w0.commitCreate 101 [2] "m").1.refSet "refs/heads/git-series/x" 200)
      rfl rfl rfl rfl rfl rfl rfl rfl rfl (by decide) rfl rfl trivial rfl rfl
  · exact c5_theorem.2 w0 ⟨true, none, false⟩ "my commit message\n# comment\n"
      "refs/heads/git-series/x" "x" ⟨tSeries2, tSeries2⟩ w0 101 w0 101 tSeries2 tSeries2
      ("Added", "series") [] (te 2) [2]
      ((w0.commitCreate 101 [2] "my commit message\n").1.refSet
        "refs/heads/git-series/x" 200)
      rfl rfl rfl rfl rfl rfl rfl rfl rfl (by decide) rfl rfl trivial rfl rfl
